import Mathlib

/-! Student roster controller (`frontend/script.js`).

A shallow embedding of the `StudentManager` class: the validation of the creation form,
the filter and the comparator sort that build `filteredStudents`, the derived fields
(age, study period, course) and the controller operations that mutate the state.

Conventions of the embedding.

* A JavaScript string is a Lean `String`; wherever the language works on UTF-16 code units
  (relational comparison, `includes`) the string is first turned into its code units.
* A JavaScript number that the program computes with is `NaN`, an infinity or a double
  whose value is an integer; it is a `JSNum`. Parsing and addition round to the nearest
  double, ties to even, and printing follows `Number.prototype.toString`.
* A `Date` object is its time value, the milliseconds since the epoch, an `Option Int`
  with `none` for an invalid date; the calendar fields of a valid date are integers.
* What the browser supplies (date parsing, the local calendar fields of a time value,
  Unicode lower-casing) is a parameter, the `Host`; the current instant is a parameter `now`.
* The DOM is not part of the state: `renderTable`, `updateSortHeaders`, `alert` and the
  form-error container write markup only and are left out, except for the argument that
  the rendered delete button hands to `deleteStudent`.
-/

namespace JS

/-! ## Strings as UTF-16 code units -/

/-- UTF-16 code units of one character: itself in the basic plane, a surrogate pair above. -/
def charUnits (c : Char) : List Nat :=
  if c.toNat < 0x10000 then [c.toNat]
  else [0xD800 + (c.toNat - 0x10000) / 0x400, 0xDC00 + (c.toNat - 0x10000) % 0x400]

/-- UTF-16 code units of a list of characters. -/
def unitsOf : List Char → List Nat
  | [] => []
  | c :: cs => charUnits c ++ unitsOf cs

/-- UTF-16 code units of a string. -/
def units (s : String) : List Nat := unitsOf s.data

/-- Lexicographic comparison of code-unit sequences, the string case of `a < b`. -/
def unitsLt : List Nat → List Nat → Bool
  | _, [] => false
  | [], _ :: _ => true
  | a :: as, b :: bs => if a < b then true else if b < a then false else unitsLt as bs

/-- String case of the relational operator: `s < t`. -/
def strLt (s t : String) : Bool := unitsLt (units s) (units t)

/-- Whether `p` occurs as a contiguous block inside the code units `l`. -/
def unitsInclude (p : List Nat) : List Nat → Bool
  | [] => p.isPrefixOf []
  | u :: us => p.isPrefixOf (u :: us) || unitsInclude p us

/-- `String.prototype.includes`: `s.includes(search)`. -/
def includes (s search : String) : Bool := unitsInclude (units search) (units s)

/-! ## Numbers -/

/-- The relational operator `a < b` on two `Date` objects, given their time values; a
comparison with an invalid date is false. -/
def numLt : Option Int → Option Int → Bool
  | some a, some b => decide (a < b)
  | _, _ => false

/-- A number the program computes with: `NaN`, a double whose value is the integer `n`, or
an infinity. -/
inductive JSNum where
  | nan
  | fin (n : Int)
  | posInf
  | negInf
  deriving DecidableEq, Repr

/-- Number of binary digits of `n`, computed with the given fuel. -/
def bitLength : Nat → Nat → Nat
  | 0, _ => 0
  | fuel + 1, n => if n = 0 then 0 else bitLength fuel (n / 2) + 1

/-- The double nearest to a natural number, ties to the even significand; `none` when the
result exceeds the largest double. Up to `2 ^ 53` every natural number is a double. -/
def roundNat (n : Nat) : Option Nat :=
  if n ≤ 2 ^ 53 then some n
  else
    let k := bitLength n n - 53
    let q := n / 2 ^ k
    let r := n % 2 ^ k
    let half := 2 ^ (k - 1)
    let q1 := if r > half ∨ (r = half ∧ q % 2 = 1) then q + 1 else q
    if 1024 < bitLength q1 q1 + k then none else some (q1 * 2 ^ k)

/-- The number that an exact integer becomes: the nearest double, or an infinity. -/
def toDouble (n : Int) : JSNum :=
  match roundNat n.natAbs with
  | some m => JSNum.fin (if n < 0 then -(m : Int) else (m : Int))
  | none => if n < 0 then JSNum.negInf else JSNum.posInf

/-- The relational operator `a < b` on numbers; any comparison with `NaN` is false. -/
def JSNum.lt : JSNum → JSNum → Bool
  | .fin a, .fin b => decide (a < b)
  | .negInf, .fin _ => true
  | .negInf, .posInf => true
  | .fin _, .posInf => true
  | _, _ => false

/-- The operator `a + b` on numbers: the exact sum, rounded. -/
def JSNum.add : JSNum → JSNum → JSNum
  | .nan, _ => .nan
  | _, .nan => .nan
  | .fin a, .fin b => toDouble (a + b)
  | .posInf, .negInf => .nan
  | .negInf, .posInf => .nan
  | .posInf, _ => .posInf
  | _, .posInf => .posInf
  | .negInf, _ => .negInf
  | _, .negInf => .negInf

/-- The operator `a - b` on numbers: the exact difference, rounded. -/
def JSNum.sub : JSNum → JSNum → JSNum
  | .nan, _ => .nan
  | _, .nan => .nan
  | .fin a, .fin b => toDouble (a - b)
  | .posInf, .posInf => .nan
  | .negInf, .negInf => .nan
  | .posInf, _ => .posInf
  | _, .negInf => .posInf
  | .negInf, _ => .negInf
  | _, .posInf => .negInf

/-- Number of decimal digits of `n`, computed with the given fuel. -/
def numDigits : Nat → Nat → Nat
  | 0, _ => 0
  | fuel + 1, n => if n < 10 then 1 else numDigits fuel (n / 10) + 1

/-- Search for the decimal value with the fewest significant digits that rounds to the
double `x` of `d` digits: with `k` significant digits the candidates are the two multiples
of `10 ^ (d - k)` around `x`, and the closer one wins. -/
def shortestAux (x d : Nat) : Nat → Nat → Nat
  | 0, _ => x
  | fuel + 1, k =>
    if d ≤ k then x
    else
      let p := 10 ^ (d - k)
      let lo := x / p * p
      let hi := lo + p
      if roundNat lo = some x then
        (if roundNat hi = some x ∧ hi - x < x - lo then hi else lo)
      else if roundNat hi = some x then hi
      else shortestAux x d fuel (k + 1)

/-- The decimal value that `Number.prototype.toString` prints for the double `x`. -/
def shortest (x : Nat) : Nat := shortestAux x (numDigits x x) (numDigits x x) 1

/-- A run of digits without its trailing zeros. -/
def dropTrailingZeros (cs : List Char) : List Char :=
  (cs.reverse.dropWhile (fun c => c = '0')).reverse

/-- Text of a positive decimal value: plain digits up to 21 of them, exponent notation
beyond. -/
def formatNat (v : Nat) : String :=
  if numDigits v v ≤ 21 then toString v
  else
    match dropTrailingZeros (toString v).data with
    | [] => "0"
    | [c] => String.mk [c] ++ "e+" ++ toString (numDigits v v - 1)
    | c :: cs => String.mk (c :: '.' :: cs) ++ "e+" ++ toString (numDigits v v - 1)

/-- `Number.prototype.toString` (also the conversion a template literal applies). -/
def numberToString : JSNum → String
  | .nan => "NaN"
  | .posInf => "Infinity"
  | .negInf => "-Infinity"
  | .fin n =>
    if n.natAbs ≤ 2 ^ 53 then toString n
    else (if n < 0 then "-" else "") ++ formatNat (shortest n.natAbs)

/-- White space that `parseInt` skips at the start of its input. -/
def isWhiteSpace (c : Char) : Bool :=
  decide (c.toNat ∈ [9, 10, 11, 12, 13, 32, 160, 0x1680, 0x2028, 0x2029, 0x202F, 0x205F,
    0x3000, 0xFEFF]) || (decide (0x2000 ≤ c.toNat) && decide (c.toNat ≤ 0x200A))

/-- Value of a character read as a digit (letters count from ten, in either case). -/
def digitValue (c : Char) : Option Nat :=
  if 48 ≤ c.toNat ∧ c.toNat ≤ 57 then some (c.toNat - 48)
  else if 97 ≤ c.toNat ∧ c.toNat ≤ 122 then some (c.toNat - 87)
  else if 65 ≤ c.toNat ∧ c.toNat ≤ 90 then some (c.toNat - 55)
  else none

/-- Values of the longest prefix made of digits of the given radix. -/
def radixDigits (radix : Nat) : List Char → List Nat
  | [] => []
  | c :: cs =>
    match digitValue c with
    | some d => if d < radix then d :: radixDigits radix cs else []
    | none => []

/-- `parseInt(string)` without a radix argument, on a string: leading white space is
skipped, a sign is read, a `0x` prefix selects radix 16, the longest digit prefix is
evaluated and rounded to a double, and an empty digit prefix gives `NaN`. -/
def parseIntString (s : String) : JSNum :=
  let trimmed := s.data.dropWhile isWhiteSpace
  let signed : Bool × List Char :=
    match trimmed with
    | '-' :: rest => (true, rest)
    | '+' :: rest => (false, rest)
    | _ => (false, trimmed)
  let prefixed : Nat × List Char :=
    match signed.2 with
    | '0' :: 'x' :: rest => (16, rest)
    | '0' :: 'X' :: rest => (16, rest)
    | _ => (10, signed.2)
  let z := radixDigits prefixed.1 prefixed.2
  if z = [] then JSNum.nan
  else
    let mathInt : Nat := z.foldl (fun acc d => acc * prefixed.1 + d) 0
    toDouble (if signed.1 then -(mathInt : Int) else (mathInt : Int))

/-- A scalar that arrives in a JSON body: a string, or a number written as the integer
`n`, whose value is the double nearest to `n`. -/
inductive JSVal where
  | str (s : String)
  | num (n : Int)
  deriving DecidableEq, Repr

/-- The `ToString` conversion, as applied by template literals and by `parseInt`. -/
def JSVal.toStr : JSVal → String
  | .str s => s
  | .num n => numberToString (toDouble n)

/-- The strict equality `a === b` of two scalars: the same string, or the same number. -/
def strictEq : JSVal → JSVal → Bool
  | .str s, .str t => decide (s = t)
  | .num a, .num b => decide (toDouble a = toDouble b)
  | _, _ => false

/-- `parseInt(value)`: the argument is converted to a string first. -/
def parseInt (v : JSVal) : JSNum := parseIntString v.toStr

/-! ## The host: dates and lower-casing -/

/-- What the browser supplies. `dateParse s` is the time value of `new Date(s)` (`none` for
an invalid date); `getFullYear`, `getMonth`, `getDate` read the local calendar fields of a
time value; `toLowerCase` is `String.prototype.toLowerCase`. Facts every engine satisfies
are recorded: the empty string is not a date; the date-only ISO form `1900-01-01` is
midnight UTC of that day; the month is 0 to 11 and the day of the month 1 to 31; the year
stays far inside the safe integers (time values end 8.64e15 milliseconds from the epoch,
in the years -271821 and 275760). -/
structure Host where
  dateParse : String → Option Int
  getFullYear : Int → Int
  getMonth : Int → Int
  getDate : Int → Int
  toLowerCase : String → String
  parse_empty : dateParse "" = none
  parse_minDate : dateParse "1900-01-01" = some (-2208988800000)
  year_range : ∀ t, -300000 ≤ getFullYear t ∧ getFullYear t ≤ 300000
  month_range : ∀ t, 0 ≤ getMonth t ∧ getMonth t ≤ 11
  date_range : ∀ t, 1 ≤ getDate t ∧ getDate t ≤ 31

/-- Milliseconds in a day. -/
def msPerDay : Int := 86400000

/-- Days since the epoch of a proleptic Gregorian date (month 1 to 12). -/
def daysFromCivil (y m d : Int) : Int :=
  let y1 := if m ≤ 2 then y - 1 else y
  let era := y1 / 400
  let yoe := y1 - era * 400
  let mp := if m > 2 then m - 3 else m + 9
  let doy := (153 * mp + 2) / 5 + d - 1
  let doe := yoe * 365 + yoe / 4 - yoe / 100 + doy
  era * 146097 + doe - 719468

/-- Gregorian date (year, month 1 to 12, day) of a day number since the epoch. -/
def civilFromDays (days : Int) : Int × Int × Int :=
  let z := days + 719468
  let era := z / 146097
  let doe := z - era * 146097
  let yoe := (doe - doe / 1460 + doe / 36524 - doe / 146096) / 365
  let doy := doe - (365 * yoe + yoe / 4 - yoe / 100)
  let mp := (5 * doy + 2) / 153
  let d := doy - (153 * mp + 2) / 5 + 1
  let m := if mp < 10 then mp + 3 else mp - 9
  (if m ≤ 2 then yoe + era * 400 + 1 else yoe + era * 400, m, d)

/-- Number of days of a month. -/
def daysInMonth (y m : Int) : Int :=
  if m = 2 then (if y % 4 = 0 ∧ (y % 100 ≠ 0 ∨ y % 400 = 0) then 29 else 28)
  else if m = 4 ∨ m = 6 ∨ m = 9 ∨ m = 11 then 30 else 31

/-- Value of a run of decimal digits, `none` when a character is not a decimal digit. -/
def decimalField (cs : List Char) : Option Int :=
  cs.foldl (fun acc c =>
    match acc with
    | none => none
    | some v => if c.isDigit then some (v * 10 + ((c.toNat - 48 : Nat) : Int)) else none)
    (some 0)

/-- Time value of a calendar date and a time of day in UTC, `none` when a field is out of
range. -/
def makeTime (y m d hh mm ss ms : Int) : Option Int :=
  if 1 ≤ m ∧ m ≤ 12 ∧ 1 ≤ d ∧ d ≤ daysInMonth y m ∧ 0 ≤ hh ∧ hh ≤ 23 ∧ 0 ≤ mm ∧ mm ≤ 59 ∧
      0 ≤ ss ∧ ss ≤ 59 then
    some (daysFromCivil y m d * msPerDay + hh * 3600000 + mm * 60000 + ss * 1000 + ms)
  else none

/-- Date parsing of the sample host: the date-only form `YYYY-MM-DD` and the form that
`toISOString` prints, `YYYY-MM-DDTHH:mm:ss.sssZ`, both in UTC; any other text is taken as
an invalid date. -/
def isoParse (s : String) : Option Int :=
  match s.data with
  | [y1, y2, y3, y4, '-', m1, m2, '-', d1, d2] =>
    match decimalField [y1, y2, y3, y4], decimalField [m1, m2], decimalField [d1, d2] with
    | some y, some m, some d => makeTime y m d 0 0 0 0
    | _, _, _ => none
  | [y1, y2, y3, y4, '-', m1, m2, '-', d1, d2, 'T', h1, h2, ':', n1, n2, ':', s1, s2, '.',
      f1, f2, f3, 'Z'] =>
    match decimalField [y1, y2, y3, y4], decimalField [m1, m2], decimalField [d1, d2],
      decimalField [h1, h2], decimalField [n1, n2], decimalField [s1, s2],
      decimalField [f1, f2, f3] with
    | some y, some m, some d, some hh, some mm, some ss, some ms => makeTime y m d hh mm ss ms
    | _, _, _, _, _, _, _ => none
  | _ => none

/-- Lower-casing of the sample host: Latin and Russian capital letters. -/
def lowerChar (c : Char) : Char :=
  if 65 ≤ c.toNat ∧ c.toNat ≤ 90 then Char.ofNat (c.toNat + 32)
  else if 0x410 ≤ c.toNat ∧ c.toNat ≤ 0x42F then Char.ofNat (c.toNat + 32)
  else if 0x400 ≤ c.toNat ∧ c.toNat ≤ 0x40F then Char.ofNat (c.toNat + 80)
  else c

/-- A time value kept within the range of the language, 8.64e15 milliseconds either side
of the epoch. -/
def timeClip (t : Int) : Int :=
  if t < -8640000000000000 then -8640000000000000
  else if 8640000000000000 < t then 8640000000000000
  else t

/-- The day number, since the epoch, of a time value read in a zone that is `offset`
milliseconds ahead of UTC. -/
def localDay (offset t : Int) : Int := (timeClip t + offset) / 86400000

/-- A sample host whose local time zone is UTC. -/
def utcHost : Host where
  dateParse := isoParse
  getFullYear := fun t => (civilFromDays (localDay 0 t)).1
  getMonth := fun t => (civilFromDays (localDay 0 t)).2.1 - 1
  getDate := fun t => (civilFromDays (localDay 0 t)).2.2
  toLowerCase := fun s => String.mk (s.data.map lowerChar)
  parse_empty := by decide
  parse_minDate := by decide
  year_range := by
    intro t
    unfold civilFromDays localDay timeClip
    simp only
    split <;> split <;> split <;> omega
  month_range := by
    intro t
    unfold civilFromDays
    simp only
    split <;> omega
  date_range := by
    intro t
    unfold civilFromDays
    simp only
    omega

/-- A sample host whose local time zone is four hours behind UTC, all year. -/
def westHost : Host where
  dateParse := isoParse
  getFullYear := fun t => (civilFromDays (localDay (-14400000) t)).1
  getMonth := fun t => (civilFromDays (localDay (-14400000) t)).2.1 - 1
  getDate := fun t => (civilFromDays (localDay (-14400000) t)).2.2
  toLowerCase := fun s => String.mk (s.data.map lowerChar)
  parse_empty := by decide
  parse_minDate := by decide
  year_range := by
    intro t
    unfold civilFromDays localDay timeClip
    simp only
    split <;> split <;> split <;> omega
  month_range := by
    intro t
    unfold civilFromDays
    simp only
    split <;> omega
  date_range := by
    intro t
    unfold civilFromDays
    simp only
    omega

/-! ## Sorting -/

/-- Insertion of `a` into a list: `a` goes in front of the first element `b` that the
comparator does not put before it (`cmp a b ≤ 0`). -/
def sortInsert {α : Type} (cmp : α → α → Int) (a : α) : List α → List α
  | [] => [a]
  | b :: l => if cmp a b ≤ 0 then a :: b :: l else b :: sortInsert cmp a l

/-- `Array.prototype.sort(cmp)`. The language requires the sort to be stable and, for a
consistent comparator, to order the elements by it; a stable insertion sort stands for it. -/
def arraySort {α : Type} (cmp : α → α → Int) : List α → List α
  | [] => []
  | a :: l => sortInsert cmp a (arraySort cmp l)

end JS

open JS

/-! ## Data model -/

/-- A student record as the server returns it. -/
structure Student where
  id : JSVal
  surname : String
  name : String
  lastname : String
  birthday : String
  studyStart : JSVal
  faculty : String
  deriving DecidableEq, Repr

/-- What `handleFormSubmit` reads from the creation form: six strings. -/
structure Candidate where
  surname : String
  name : String
  lastname : String
  birthday : String
  studyStart : String
  faculty : String
  deriving DecidableEq, Repr

/-- The `filters` object. -/
structure Filters where
  fio : String
  faculty : String
  startYear : String
  endYear : String
  deriving DecidableEq, Repr

/-- The `currentSort` object. -/
structure SortState where
  field : String
  direction : String
  deriving DecidableEq, Repr

/-- The fields of a `StudentManager` instance. -/
structure StudentManager where
  students : List Student
  filteredStudents : List Student
  currentSort : SortState
  filters : Filters
  deriving DecidableEq, Repr

namespace StudentManager

/-- State left by the constructor before the first load completes. -/
def initial : StudentManager :=
  { students := [], filteredStudents := [],
    currentSort := { field := "fio", direction := "asc" },
    filters := { fio := "", faculty := "", startYear := "", endYear := "" } }

/-! ## Validation -/

/-- `validateStudent(student)`: the list of error messages, in the order they are pushed. -/
def validateStudent (h : Host) (now : Int) (student : Candidate) : List String :=
  let errors : List String := []
  let currentDate : Option Int := some now
  let currentYear : Int := h.getFullYear now
  let errors := if student.surname = "" then errors ++ ["Фамилия обязательна для заполнения"]
    else errors
  let errors := if student.name = "" then errors ++ ["Имя обязательно для заполнения"]
    else errors
  let errors := if student.lastname = "" then errors ++ ["Отчество обязательно для заполнения"]
    else errors
  let errors := if student.birthday = "" then
      errors ++ ["Дата рождения обязательна для заполнения"]
    else errors
  let errors := if student.studyStart = "" then
      errors ++ ["Год начала обучения обязателен для заполнения"]
    else errors
  let errors := if student.faculty = "" then errors ++ ["Факультет обязателен для заполнения"]
    else errors
  let errors :=
    if student.birthday ≠ "" then
      let birthDate := h.dateParse student.birthday
      let minDate := h.dateParse "1900-01-01"
      let errors := if numLt birthDate minDate then
          errors ++ ["Дата рождения не может быть раньше 01.01.1900"]
        else errors
      let errors := if numLt currentDate birthDate then
          errors ++ ["Дата рождения не может быть в будущем"]
        else errors
      errors
    else errors
  let errors :=
    if student.studyStart ≠ "" then
      let startYear := parseInt (.str student.studyStart)
      let errors := if JSNum.lt startYear (JSNum.fin 2000) then
          errors ++ ["Год начала обучения не может быть меньше 2000"]
        else errors
      let errors := if JSNum.lt (JSNum.fin currentYear) startYear then
          errors ++ ["Год начала обучения не может быть в будущем"]
        else errors
      errors
    else errors
  errors

/-! ## Filtering and sorting -/

/-- The template literal `${student.surname} ${student.name} ${student.lastname}`. -/
def fullName (student : Student) : String :=
  student.surname ++ " " ++ student.name ++ " " ++ student.lastname

/-- The callback that `applyFilters` hands to `filter`: each active filter may reject the
record, a record that no filter rejects is kept. -/
def filterCallback (h : Host) (filters : Filters) (student : Student) : Bool :=
  if filters.fio ≠ "" ∧
      includes (h.toLowerCase (fullName student)) (h.toLowerCase filters.fio) = false then
    false
  else if filters.faculty ≠ "" ∧
      includes (h.toLowerCase student.faculty) (h.toLowerCase filters.faculty) = false then
    false
  else if filters.startYear ≠ "" ∧
      strictEq student.studyStart (JSVal.str filters.startYear) = false then
    false
  else if filters.endYear ≠ "" ∧
      numberToString (JSNum.add (parseInt student.studyStart) (JSNum.fin 4)) ≠ filters.endYear then
    false
  else true

/-- The comparator that `sortStudents` hands to `sort`. -/
def compareFn (h : Host) (currentSort : SortState) (a b : Student) : Int :=
  let result (lt gt : Bool) : Int :=
    if lt then (if currentSort.direction = "asc" then -1 else 1)
    else if gt then (if currentSort.direction = "asc" then 1 else -1)
    else 0
  if currentSort.field = "fio" then
    result (strLt (fullName a) (fullName b)) (strLt (fullName b) (fullName a))
  else if currentSort.field = "faculty" then
    result (strLt a.faculty b.faculty) (strLt b.faculty a.faculty)
  else if currentSort.field = "birthday" then
    result (numLt (h.dateParse a.birthday) (h.dateParse b.birthday))
      (numLt (h.dateParse b.birthday) (h.dateParse a.birthday))
  else if currentSort.field = "studyStart" then
    result (JSNum.lt (parseInt a.studyStart) (parseInt b.studyStart))
      (JSNum.lt (parseInt b.studyStart) (parseInt a.studyStart))
  else 0

/-- `sortStudents()`: sorts `filteredStudents` in place. -/
def sortStudents (h : Host) (m : StudentManager) : StudentManager :=
  { m with filteredStudents := arraySort (compareFn h m.currentSort) m.filteredStudents }

/-- `applyFilters()`: rebuilds `filteredStudents` from `students`, then sorts it. -/
def applyFilters (h : Host) (m : StudentManager) : StudentManager :=
  sortStudents h { m with filteredStudents := m.students.filter (filterCallback h m.filters) }

/-- `handleSort(field)`: updates `currentSort`, then sorts the current view. -/
def handleSort (h : Host) (m : StudentManager) (field : String) : StudentManager :=
  if m.currentSort.field = field then
    sortStudents h { m with currentSort :=
      { m.currentSort with
        direction := if m.currentSort.direction = "asc" then "desc" else "asc" } }
  else
    sortStudents h { m with currentSort := { field := field, direction := "asc" } }

/-! ## Derived fields -/

/-- `calculateAge(birthday)`; the result is `NaN` when the birthday is not a date. The
calendar fields are small integers, on which the arithmetic of doubles is exact. -/
def calculateAge (h : Host) (now : Int) (birthday : String) : JSNum :=
  match h.dateParse birthday with
  | none => JSNum.nan
  | some birthDate =>
    let age := h.getFullYear now - h.getFullYear birthDate
    let monthDiff := h.getMonth now - h.getMonth birthDate
    if monthDiff < 0 ∨ (monthDiff = 0 ∧ h.getDate now < h.getDate birthDate) then
      JSNum.fin (age - 1)
    else JSNum.fin age

/-- The object `getStudyInfo` returns. -/
structure StudyInfo where
  period : String
  courseInfo : String
  deriving DecidableEq, Repr

/-- The local `course` of `getStudyInfo`, computed on its `else` branch. -/
def course (h : Host) (now : Int) (student : Student) : JSNum :=
  JSNum.add (JSNum.sub (JSNum.fin (h.getFullYear now)) (parseInt student.studyStart))
    (JSNum.fin (if h.getMonth now ≥ 8 then 1 else 0))

/-- `getStudyInfo(student)`. -/
def getStudyInfo (h : Host) (now : Int) (student : Student) : StudyInfo :=
  let startYear := parseInt student.studyStart
  let endYear := JSNum.add startYear (JSNum.fin 4)
  let currentYear := h.getFullYear now
  let currentMonth := h.getMonth now
  let courseInfo :=
    if JSNum.lt endYear (JSNum.fin currentYear) = true ∨
        (endYear = JSNum.fin currentYear ∧ currentMonth ≥ 8) then
      "закончил"
    else
      numberToString (course h now student) ++ " курс"
  { period := numberToString startYear ++ "-" ++ numberToString endYear,
    courseInfo := courseInfo }

/-- Characters that mean themselves both in a double-quoted HTML attribute and in a
single-quoted script string. -/
def plainChar (c : Char) : Bool := c.isAlphanum || c = '-' || c = '_'

/-- The argument that the delete button of a rendered row passes to `deleteStudent`. The
row's markup is `onclick="studentManager.deleteStudent('${student.id}')"`: the text of the
id inside a quoted string literal, so the handler receives a string. The value is given
for ids made of plain characters, where markup and literal need no unescaping. -/
def deleteButtonArgument (student : Student) : Option JSVal :=
  if student.id.toStr.data.all plainChar then some (JSVal.str student.id.toStr) else none

/-! ## Requests -/

/-- How a `fetch` ends: a response with `ok` set and its JSON body, a response without
`ok`, or a rejected promise. -/
inductive Fetch (α : Type) where
  | ok (body : α)
  | notOk
  | failed
  deriving DecidableEq, Repr

/-- `loadStudentsFromServer()`. -/
def loadStudentsFromServer (h : Host) (m : StudentManager) (response : Fetch (List Student)) :
    StudentManager :=
  match response with
  | .ok body => applyFilters h { m with students := body }
  | _ => m

/-- `createStudent(studentData)`; `toISOString` throws on an invalid date, inside the `try`. -/
def createStudent (h : Host) (m : StudentManager) (studentData : Candidate)
    (response : Fetch Student) : StudentManager :=
  match h.dateParse studentData.birthday with
  | none => m
  | some _ =>
    match response with
    | .ok newStudent => applyFilters h { m with students := m.students ++ [newStudent] }
    | _ => m

/-- `String.prototype.trim`. -/
def trim (s : String) : String :=
  String.mk ((s.data.dropWhile isWhiteSpace).reverse.dropWhile isWhiteSpace).reverse

/-- The object `student` that `handleFormSubmit` builds from the six form fields. -/
def formStudent (form : Candidate) : Candidate :=
  { surname := trim form.surname, name := trim form.name, lastname := trim form.lastname,
    birthday := form.birthday, studyStart := form.studyStart, faculty := trim form.faculty }

/-- `handleFormSubmit()`, given the text of the six form fields. -/
def handleFormSubmit (h : Host) (now : Int) (m : StudentManager) (form : Candidate)
    (response : Fetch Student) : StudentManager :=
  let student := formStudent form
  let errors := validateStudent h now student
  if errors.length > 0 then m else createStudent h m student response

/-- `deleteStudent(studentId)`, given the user's answer to `confirm` and the response. -/
def deleteStudent (h : Host) (m : StudentManager) (studentId : JSVal) (confirmed : Bool)
    (response : Fetch Unit) : StudentManager :=
  if confirmed = false then m
  else
    match response with
    | .ok _ =>
      applyFilters h
        { m with students := m.students.filter (fun s => strictEq s.id studentId = false) }
    | _ => m

/-- One controller operation, with what the outside world answers. -/
inductive Op where
  | filterFio (value : String)
  | filterFaculty (value : String)
  | filterStartYear (value : String)
  | filterEndYear (value : String)
  | load (response : Fetch (List Student))
  | submit (now : Int) (form : Candidate) (response : Fetch Student)
  | delete (studentId : JSVal) (confirmed : Bool) (response : Fetch Unit)
  | sort (field : String)

/-- Effect of one operation on the controller. -/
def step (h : Host) (m : StudentManager) : Op → StudentManager
  | .filterFio value => applyFilters h { m with filters := { m.filters with fio := value } }
  | .filterFaculty value =>
    applyFilters h { m with filters := { m.filters with faculty := value } }
  | .filterStartYear value =>
    applyFilters h { m with filters := { m.filters with startYear := value } }
  | .filterEndYear value =>
    applyFilters h { m with filters := { m.filters with endYear := value } }
  | .load response => loadStudentsFromServer h m response
  | .submit now form response => handleFormSubmit h now m form response
  | .delete studentId confirmed response => deleteStudent h m studentId confirmed response
  | .sort field => handleSort h m field

/-- Effect of a sequence of operations. -/
def run (h : Host) (ops : List Op) (m : StudentManager) : StudentManager :=
  ops.foldl (step h) m

end StudentManager

/-! ## Specification-side definitions -/

namespace Spec

open StudentManager

/-- The text `surname name lastname` of a record: its three name parts joined by single
spaces. -/
def fio (student : Student) : String :=
  String.intercalate " " [student.surname, student.name, student.lastname]

/-- The filter predicate in the words of the specification: every filter is empty or
holds of the record. -/
def passesFilters (h : Host) (filters : Filters) (student : Student) : Prop :=
  (filters.fio = "" ∨
    includes (h.toLowerCase (fio student)) (h.toLowerCase filters.fio) = true) ∧
  (filters.faculty = "" ∨
    includes (h.toLowerCase student.faculty) (h.toLowerCase filters.faculty) = true) ∧
  (filters.startYear = "" ∨ student.studyStart = JSVal.str filters.startYear) ∧
  (filters.endYear = "" ∨
    numberToString (JSNum.add (parseInt student.studyStart) (JSNum.fin 4)) = filters.endYear)

instance (h : Host) (filters : Filters) (student : Student) :
    Decidable (passesFilters h filters student) := by
  unfold passesFilters; infer_instance

/-- The integers with an element above and an element below all of them, in their usual
order: the values that a number other than `NaN` takes. -/
abbrev ExtInt : Type := WithBot (WithTop Int)

/-- The value of a number as an extended integer; `NaN` has none. -/
def numValue : JSNum → Option ExtInt
  | .nan => none
  | .fin n => some ((n : WithTop Int) : WithBot (WithTop Int))
  | .posInf => some ((⊤ : WithTop Int) : WithBot (WithTop Int))
  | .negInf => some ⊥

/-- A sort key: the code units of a text, or the value of a number. -/
inductive SortKey where
  | text (units : List Nat)
  | number (value : ExtInt)
  deriving DecidableEq

/-- The key a record is sorted by under a field: the full name or the faculty as text, the
birthday as a time value, the enrollment year as a number. It is `none` when the field is
not a sortable column, the birthday is not a date, or the year does not parse. -/
def sortKey (h : Host) (field : String) (s : Student) : Option SortKey :=
  if field = "fio" then some (SortKey.text (units (fio s)))
  else if field = "faculty" then some (SortKey.text (units s.faculty))
  else if field = "birthday" then
    (h.dateParse s.birthday).map
      (fun t => SortKey.number ((t : WithTop Int) : WithBot (WithTop Int)))
  else if field = "studyStart" then (numValue (parseInt s.studyStart)).map SortKey.number
  else none

/-- Order of two keys of the same sort: lexicographic on code units, numeric on numbers. -/
def SortKey.le : SortKey → SortKey → Prop
  | .text u, .text v => u = v ∨ List.Lex (· < ·) u v
  | .number a, .number b => a ≤ b
  | _, _ => False

/-- Order of two well-defined keys; it does not hold when a key is missing. -/
def keyLe : Option SortKey → Option SortKey → Prop
  | some a, some b => a.le b
  | _, _ => False

/-- The order `keyLe` in the direction of the sort: as it is for `asc`, reversed otherwise. -/
def keyOrdered (direction : String) (a b : Option SortKey) : Prop :=
  if direction = "asc" then keyLe a b else keyLe b a

/-- Strict order of two keys of the same sort, as a Boolean; false when a key is missing. -/
def keyLt : Option SortKey → Option SortKey → Bool
  | some (.text u), some (.text v) => unitsLt u v
  | some (.number a), some (.number b) => decide (a < b)
  | _, _ => false

/-- Two keys are both texts or both numbers. -/
def sameSort : Option SortKey → Option SortKey → Prop
  | some (.text _), some (.text _) => True
  | some (.number _), some (.number _) => True
  | _, _ => False

/-- Time value of 1900-01-01, midnight UTC. -/
def minDate : Int := -2208988800000

/-- The birthday is a date before 1900-01-01. -/
def birthdayBeforeMinDate (h : Host) (c : Candidate) : Bool :=
  match h.dateParse c.birthday with
  | some t => decide (t < minDate)
  | none => false

/-- The birthday is a date after the current instant. -/
def birthdayInFuture (h : Host) (now : Int) (c : Candidate) : Bool :=
  match h.dateParse c.birthday with
  | some t => decide (now < t)
  | none => false

/-- The enrollment year, read as an integer, is less than 2000. -/
def yearBefore2000 (c : Candidate) : Bool :=
  match parseInt (JSVal.str c.studyStart) with
  | JSNum.fin y => decide (y < 2000)
  | JSNum.negInf => true
  | _ => false

/-- The enrollment year, read as an integer, is greater than the current year. -/
def yearInFuture (h : Host) (now : Int) (c : Candidate) : Bool :=
  match parseInt (JSVal.str c.studyStart) with
  | JSNum.fin y => decide (h.getFullYear now < y)
  | JSNum.posInf => true
  | _ => false

/-- The rules of the validation in the order of the specification: whether the candidate
violates the rule, and the message of the rule. -/
def validationRules (h : Host) (now : Int) (c : Candidate) : List (Bool × String) :=
  [ (decide (c.surname = ""), "Фамилия обязательна для заполнения"),
    (decide (c.name = ""), "Имя обязательно для заполнения"),
    (decide (c.lastname = ""), "Отчество обязательно для заполнения"),
    (decide (c.birthday = ""), "Дата рождения обязательна для заполнения"),
    (decide (c.studyStart = ""), "Год начала обучения обязателен для заполнения"),
    (decide (c.faculty = ""), "Факультет обязателен для заполнения"),
    (birthdayBeforeMinDate h c, "Дата рождения не может быть раньше 01.01.1900"),
    (birthdayInFuture h now c, "Дата рождения не может быть в будущем"),
    (yearBefore2000 c, "Год начала обучения не может быть меньше 2000"),
    (yearInFuture h now c, "Год начала обучения не может быть в будущем") ]

/-- The messages of the violated rules, in the order of the rules. -/
def expectedErrors (h : Host) (now : Int) (c : Candidate) : List String :=
  ((validationRules h now c).filter (fun rule => rule.1)).map (fun rule => rule.2)

/-- A candidate whose enrollment year is not a number, everything else in order. -/
def candidateBadYear : Candidate :=
  { surname := "Иванов", name := "Иван", lastname := "Иванович", birthday := "2000-05-01",
    studyStart := "abc", faculty := "Физика" }

/-- A candidate whose birthday is not a date, everything else in order. -/
def candidateBadBirthday : Candidate :=
  { surname := "Иванов", name := "Иван", lastname := "Иванович", birthday := "вчера",
    studyStart := "2020", faculty := "Физика" }

/-- Time value of 2024-06-15, midnight UTC. -/
def june2024 : Int := 1718409600000

/-- Time value of 2024-03-01, midnight UTC. -/
def march2024 : Int := 1709251200000

/-- A calendar date as `getFullYear`, `getMonth` (zero-based) and `getDate` report it. -/
structure CalendarDate where
  year : Int
  month : Int
  day : Int
  deriving DecidableEq, Repr

/-- The local calendar date of a time value. -/
def calendarDate (h : Host) (t : Int) : CalendarDate :=
  { year := h.getFullYear t, month := h.getMonth t, day := h.getDate t }

/-- Lexicographic order of dates: `a` is strictly earlier than `b`. -/
def CalendarDate.lt (a b : CalendarDate) : Prop :=
  a.year < b.year ∨ (a.year = b.year ∧ (a.month < b.month ∨ (a.month = b.month ∧ a.day < b.day)))

/-- Lexicographic order of dates: `a` is not later than `b`. -/
def CalendarDate.le (a b : CalendarDate) : Prop :=
  a.year < b.year ∨ (a.year = b.year ∧ (a.month < b.month ∨ (a.month = b.month ∧ a.day ≤ b.day)))

/-- Whole years from a birth date to a current date: the difference of the years, less one
exactly when the current (month, day) is lexicographically before the birth (month, day). -/
def wholeYears (birth today : CalendarDate) : Int :=
  today.year - birth.year -
    (if today.month < birth.month ∨ (today.month = birth.month ∧ today.day < birth.day) then 1
      else 0)

/-- A safe integer: of magnitude at most `2 ^ 53`, where the arithmetic of doubles is
exact. -/
def safeInt (n : Int) : Prop := -9007199254740992 ≤ n ∧ n ≤ 9007199254740992

/-- A record whose enrollment year is the text `9007199254740989`, that is `2 ^ 53 - 3`. -/
def studentStartLarge : Student :=
  { id := JSVal.str "a3", surname := "Иванов", name := "Иван", lastname := "Иванович",
    birthday := "2006-05-01", studyStart := JSVal.str "9007199254740989",
    faculty := "Физика" }

/-- Time value of 2024-04-30, 16:00 UTC: noon of 30 April four hours behind UTC. -/
def april30noonWest : Int := 1714492800000

/-- A record enrolled in 2024. -/
def studentStart2024 : Student :=
  { id := JSVal.str "a1", surname := "Иванов", name := "Иван", lastname := "Иванович",
    birthday := "2006-05-01", studyStart := JSVal.str "2024", faculty := "Физика" }

/-- The creation form that leads to `studentStart2024`. -/
def candidateStart2024 : Candidate :=
  { surname := "Иванов", name := "Иван", lastname := "Иванович", birthday := "2006-05-01",
    studyStart := "2024", faculty := "Физика" }

/-- The view as a function of the student list, the filters and the sort state: the records
that the filter callback keeps, sorted by the comparator. -/
def view (h : Host) (students : List Student) (filters : Filters) (sort : SortState) :
    List Student :=
  arraySort (compareFn h sort) (students.filter (filterCallback h filters))

/-- Whether an operation reaches its call of `applyFilters`: every filter input does, a
load, a creation and a deletion do when they go through. -/
def callsApplyFilters (h : Host) : Op → Bool
  | .filterFio _ => true
  | .filterFaculty _ => true
  | .filterStartYear _ => true
  | .filterEndYear _ => true
  | .load (.ok _) => true
  | .load _ => false
  | .submit now form (.ok _) =>
    decide (validateStudent h now (formStudent form) = []) &&
      (h.dateParse (formStudent form).birthday).isSome
  | .submit _ _ _ => false
  | .delete _ confirmed (.ok _) => confirmed
  | .delete _ _ _ => false
  | .sort _ => false

/-- An operation that changes nothing: it is no header click and does not reach
`applyFilters` (a failed or refused request, a declined deletion, a rejected form). -/
def isIdle (h : Host) : Op → Bool
  | .sort _ => false
  | op => !callsApplyFilters h op

/-- A record with surname `Б`. -/
def studentB : Student :=
  { id := JSVal.str "a1", surname := "Б", name := "Иван", lastname := "Иванович",
    birthday := "2000-05-01", studyStart := JSVal.str "2020", faculty := "Физика" }

/-- A record with surname `А` and the faculty of `studentB`. -/
def studentA : Student :=
  { id := JSVal.str "a2", surname := "А", name := "Пётр", lastname := "Петрович",
    birthday := "2001-06-02", studyStart := JSVal.str "2021", faculty := "Физика" }

/-- A load of two records, then a click on the faculty header. -/
def historySort : List Op :=
  [Op.load (Fetch.ok [studentB, studentA]), Op.sort "faculty"]

/-- The same, followed by an input that leaves the name filter empty. -/
def historySortFilter : List Op :=
  [Op.load (Fetch.ok [studentB, studentA]), Op.sort "faculty", Op.filterFio ""]

/-- Another way to the same students, filters and sort state as `historySortFilter`. -/
def historyFilterLast : List Op :=
  [Op.load (Fetch.ok [studentB, studentA]), Op.sort "fio", Op.sort "faculty",
    Op.filterFaculty ""]

/-- A record whose id the server sent as the number 1. -/
def studentNumericId : Student :=
  { id := JSVal.num 1, surname := "Иванов", name := "Иван", lastname := "Иванович",
    birthday := "2000-05-01", studyStart := JSVal.str "2020", faculty := "Физика" }

/-- The controller after it loaded the single record `studentNumericId`. -/
def managerNumericId : StudentManager :=
  loadStudentsFromServer utcHost initial (Fetch.ok [studentNumericId])

/-- A controller whose view holds two records, to be sorted by name, ascending. -/
def managerByName : StudentManager :=
  { students := [studentB, studentA], filteredStudents := [studentB, studentA],
    currentSort := { field := "fio", direction := "asc" },
    filters := { fio := "", faculty := "", startYear := "", endYear := "" } }

end Spec

/-! ## Facts about the sort -/

namespace JS

theorem mem_sortInsert {α : Type} (cmp : α → α → Int) (a x : α) (l : List α) :
    x ∈ sortInsert cmp a l ↔ x = a ∨ x ∈ l := by
  induction l with
  | nil => simp [sortInsert]
  | cons b l ih =>
    unfold sortInsert
    split
    · simp
    · simp only [List.mem_cons, ih]
      tauto

theorem sortInsert_perm {α : Type} (cmp : α → α → Int) (a : α) (l : List α) :
    (sortInsert cmp a l).Perm (a :: l) := by
  induction l with
  | nil => simp [sortInsert]
  | cons b l ih =>
    unfold sortInsert
    split
    · exact List.Perm.refl _
    · exact ((List.Perm.cons b ih).trans (List.Perm.swap a b l))

theorem arraySort_perm {α : Type} (cmp : α → α → Int) (l : List α) :
    (arraySort cmp l).Perm l := by
  induction l with
  | nil => simp [arraySort]
  | cons a l ih =>
    unfold arraySort
    exact (sortInsert_perm cmp a _).trans (List.Perm.cons a ih)

theorem mem_arraySort {α : Type} (cmp : α → α → Int) (x : α) (l : List α) :
    x ∈ arraySort cmp l ↔ x ∈ l :=
  (arraySort_perm cmp l).mem_iff

/-- Inserting into a list ordered by the comparator keeps it ordered, when the comparator
is total and transitive on the elements involved. -/
theorem sortInsert_pairwise {α : Type} (cmp : α → α → Int) (a : α) (l : List α)
    (total : ∀ x ∈ a :: l, ∀ y ∈ a :: l, cmp x y ≤ 0 ∨ cmp y x ≤ 0)
    (trans : ∀ x ∈ a :: l, ∀ y ∈ a :: l, ∀ z ∈ a :: l, cmp x y ≤ 0 → cmp y z ≤ 0 → cmp x z ≤ 0)
    (hl : l.Pairwise (fun x y => cmp x y ≤ 0)) :
    (sortInsert cmp a l).Pairwise (fun x y => cmp x y ≤ 0) := by
  induction l with
  | nil => simp [sortInsert]
  | cons b l ih =>
    have hb := List.pairwise_cons.mp hl
    unfold sortInsert
    split
    · rename_i hab
      refine List.pairwise_cons.mpr ⟨?_, hl⟩
      intro y hy
      rcases List.mem_cons.mp hy with rfl | hy
      · exact hab
      · exact trans a (by simp) b (by simp) y (by simp [hy]) hab (hb.1 y hy)
    · rename_i hab
      have hba : cmp b a ≤ 0 := by
        rcases total a (by simp) b (by simp) with h1 | h1
        · exact absurd h1 hab
        · exact h1
      refine List.pairwise_cons.mpr ⟨?_, ?_⟩
      · intro y hy
        rcases (mem_sortInsert cmp a y l).mp hy with rfl | hy
        · exact hba
        · exact hb.1 y hy
      · apply ih
        · intro x hx y hy
          exact total x (by simp at hx ⊢; tauto) y (by simp at hy ⊢; tauto)
        · intro x hx y hy z hz
          exact trans x (by simp at hx ⊢; tauto) y (by simp at hy ⊢; tauto) z
            (by simp at hz ⊢; tauto)
        · exact hb.2

/-- The sort orders the list by the comparator, when the comparator is total and
transitive on the elements of the list. -/
theorem arraySort_pairwise {α : Type} (cmp : α → α → Int) (l : List α)
    (total : ∀ x ∈ l, ∀ y ∈ l, cmp x y ≤ 0 ∨ cmp y x ≤ 0)
    (trans : ∀ x ∈ l, ∀ y ∈ l, ∀ z ∈ l, cmp x y ≤ 0 → cmp y z ≤ 0 → cmp x z ≤ 0) :
    (arraySort cmp l).Pairwise (fun x y => cmp x y ≤ 0) := by
  induction l with
  | nil => simp [arraySort]
  | cons a l ih =>
    unfold arraySort
    have mem : ∀ x, x ∈ a :: arraySort cmp l → x ∈ a :: l := by
      intro x hx
      rcases List.mem_cons.mp hx with rfl | hx
      · simp
      · exact List.mem_cons_of_mem _ ((mem_arraySort cmp x l).mp hx)
    apply sortInsert_pairwise
    · intro x hx y hy
      exact total x (mem x hx) y (mem y hy)
    · intro x hx y hy z hz
      exact trans x (mem x hx) y (mem y hy) z (mem z hz)
    · apply ih
      · intro x hx y hy
        exact total x (List.mem_cons_of_mem _ hx) y (List.mem_cons_of_mem _ hy)
      · intro x hx y hy z hz
        exact trans x (List.mem_cons_of_mem _ hx) y (List.mem_cons_of_mem _ hy) z
          (List.mem_cons_of_mem _ hz)

/-- Inserting an element of a class of mutually tied elements puts it in front of the
members of the class already present. -/
theorem sortInsert_filter {α : Type} (cmp : α → α → Int) (p : α → Bool) (a : α) (l : List α)
    (tied : ∀ y ∈ l, p a = true → p y = true → cmp a y ≤ 0) :
    (sortInsert cmp a l).filter p = (a :: l).filter p := by
  induction l with
  | nil => simp [sortInsert]
  | cons b l ih =>
    unfold sortInsert
    split
    · rfl
    · rename_i hab
      have ih1 := ih (fun y hy => tied y (List.mem_cons_of_mem _ hy))
      by_cases hpa : p a = true
      · have hpb : p b = false := by
          by_contra hpb
          exact hab (tied b (by simp) hpa (by simpa using hpb))
        simp only [List.filter_cons, hpb, hpa, ite_true] at ih1 ⊢
        simpa using ih1
      · have hpa1 : p a = false := by simpa using hpa
        simp only [List.filter_cons, hpa1] at ih1 ⊢
        simp only [ih1]
        simp

/-- Stability: the members of a class of mutually tied elements keep their order. -/
theorem arraySort_filter {α : Type} (cmp : α → α → Int) (p : α → Bool) (l : List α)
    (tied : ∀ x ∈ l, ∀ y ∈ l, p x = true → p y = true → cmp x y ≤ 0) :
    (arraySort cmp l).filter p = l.filter p := by
  induction l with
  | nil => simp [arraySort]
  | cons a l ih =>
    unfold arraySort
    rw [sortInsert_filter]
    · simp only [List.filter_cons]
      rw [ih (fun x hx y hy => tied x (List.mem_cons_of_mem _ hx) y (List.mem_cons_of_mem _ hy))]
    · intro y hy
      exact tied a (by simp) y (List.mem_cons_of_mem _ ((mem_arraySort cmp y l).mp hy))

theorem unitsLt_iff (u v : List Nat) : unitsLt u v = true ↔ List.Lex (· < ·) u v := by
  induction u generalizing v with
  | nil =>
    cases v with
    | nil => simp [unitsLt, List.Lex.not_nil_right]
    | cons b bs => simp [unitsLt, List.Lex.nil]
  | cons a as ih =>
    cases v with
    | nil => simp [unitsLt, List.Lex.not_nil_right]
    | cons b bs =>
      unfold unitsLt
      by_cases h1 : a < b
      · simp only [h1, if_true, true_iff]
        exact List.Lex.rel h1
      · by_cases h2 : b < a
        · simp only [h1, h2, if_false, if_true, Bool.false_eq_true, false_iff]
          intro hl
          cases hl with
          | cons _ => exact absurd h2 (lt_irrefl _)
          | rel hr => exact h1 hr
        · have hab : a = b := by omega
          subst hab
          simp only [h1, if_false, ih bs]
          exact List.Lex.cons_iff.symm

theorem unitsLt_irrefl (u : List Nat) : unitsLt u u = false := by
  have h := (unitsLt_iff u u).not.mpr (irrefl_of (List.Lex (· < ·)) u)
  simpa using h

theorem unitsLt_trans {u v w : List Nat} (h1 : unitsLt u v = true) (h2 : unitsLt v w = true) :
    unitsLt u w = true :=
  (unitsLt_iff u w).mpr (trans_of (List.Lex (· < ·)) ((unitsLt_iff u v).mp h1)
    ((unitsLt_iff v w).mp h2))

theorem unitsLt_trichotomy {u v : List Nat} (h1 : unitsLt u v = false)
    (h2 : unitsLt v u = false) : u = v := by
  rcases (List.Lex.isTrichotomous (α := Nat) (· < ·)).trichotomous u v with h | h | h
  · rw [(unitsLt_iff u v).mpr h] at h1
    exact absurd h1 (by simp)
  · exact h
  · rw [(unitsLt_iff v u).mpr h] at h2
    exact absurd h2 (by simp)

/-! ## Facts about numbers -/

theorem roundNat_of_le (n : Nat) (hn : n ≤ 2 ^ 53) : roundNat n = some n := by
  unfold roundNat
  rw [if_pos hn]

/-- On the safe integers rounding changes nothing. -/
theorem toDouble_of_safe (n : Int) (h1 : -9007199254740992 ≤ n) (h2 : n ≤ 9007199254740992) :
    toDouble n = JSNum.fin n := by
  have hn : n.natAbs ≤ 2 ^ 53 := by
    norm_num
    omega
  unfold toDouble
  rw [roundNat_of_le _ hn]
  simp only
  congr 1
  split <;> omega

/-- A safe integer prints as its decimal text. -/
theorem numberToString_of_safe (n : Int) (h1 : -9007199254740992 ≤ n)
    (h2 : n ≤ 9007199254740992) : numberToString (JSNum.fin n) = toString n := by
  have hn : n.natAbs ≤ 2 ^ 53 := by
    norm_num
    omega
  show (if n.natAbs ≤ 2 ^ 53 then toString n
    else (if n < 0 then "-" else "") ++ formatNat (shortest n.natAbs)) = toString n
  rw [if_pos hn]

theorem lt_fin_fin (a b : Int) : JSNum.lt (JSNum.fin a) (JSNum.fin b) = decide (a < b) := rfl

end JS

namespace StudentManager

open Spec

/-! ## Filtering -/

/-- The template literal of the code builds the text `surname name lastname`. -/
theorem fullName_eq_fio (student : Student) : fullName student = fio student := rfl

theorem strictEq_str (v : JSVal) (t : String) :
    strictEq v (JSVal.str t) = true ↔ v = JSVal.str t := by
  cases v with
  | str s => simp [strictEq]
  | num n => simp [strictEq]

/-- The callback of `applyFilters` keeps exactly the records that pass every non-empty
filter. -/
theorem filterCallback_iff (h : Host) (filters : Filters) (student : Student) :
    filterCallback h filters student = true ↔ passesFilters h filters student := by
  unfold filterCallback passesFilters
  rw [fullName_eq_fio]
  have hstrict : strictEq student.studyStart (JSVal.str filters.startYear) = false ↔
      ¬ student.studyStart = JSVal.str filters.startYear := by
    rw [← strictEq_str]
    simp
  simp only [hstrict]
  split_ifs with h1 h2 h3 h4
  · simp only [Bool.false_eq_true, false_iff]
    rintro ⟨g1, _⟩
    rcases g1 with g1 | g1
    · exact h1.1 g1
    · rw [h1.2] at g1
      exact absurd g1 (by simp)
  · simp only [Bool.false_eq_true, false_iff]
    rintro ⟨_, g2, _⟩
    rcases g2 with g2 | g2
    · exact h2.1 g2
    · rw [h2.2] at g2
      exact absurd g2 (by simp)
  · simp only [Bool.false_eq_true, false_iff]
    rintro ⟨_, _, g3, _⟩
    rcases g3 with g3 | g3
    · exact h3.1 g3
    · exact h3.2 g3
  · simp only [Bool.false_eq_true, false_iff]
    rintro ⟨_, _, _, g4⟩
    rcases g4 with g4 | g4
    · exact h4.1 g4
    · exact h4.2 g4
  · simp only [true_iff]
    refine ⟨?_, ?_, ?_, ?_⟩
    · by_cases g : filters.fio = ""
      · exact Or.inl g
      · right
        by_contra hc
        exact h1 ⟨g, by simpa using hc⟩
    · by_cases g : filters.faculty = ""
      · exact Or.inl g
      · right
        by_contra hc
        exact h2 ⟨g, by simpa using hc⟩
    · by_cases g : filters.startYear = ""
      · exact Or.inl g
      · right
        by_contra hc
        exact h3 ⟨g, hc⟩
    · by_cases g : filters.endYear = ""
      · exact Or.inl g
      · right
        by_contra hc
        exact h4 ⟨g, hc⟩

/-- Claim C1. After `applyFilters` the view `filteredStudents` holds, as a multiset, exactly
the records of `students` that pass every non-empty filter; so every record of the view is a
record of `students` that satisfies all active predicates, and with the four filters empty
the view holds every student. This is so for every list, filter state and sort state. -/
theorem applyFilters_filteredStudents (h : Host) (m : StudentManager) :
    ((applyFilters h m).filteredStudents : Multiset Student) =
        ↑(m.students.filter (fun s => decide (passesFilters h m.filters s))) ∧
    (∀ s ∈ (applyFilters h m).filteredStudents,
        s ∈ m.students ∧ passesFilters h m.filters s) ∧
    ((applyFilters h { m with filters := ⟨"", "", "", ""⟩ }).filteredStudents :
        Multiset Student) = ↑m.students := by
  have key : ∀ f : Filters, m.students.filter (filterCallback h f) =
      m.students.filter (fun s => decide (passesFilters h f s)) := by
    intro f
    apply List.filter_congr
    intro s _
    by_cases hp : passesFilters h f s
    · simp [hp, (filterCallback_iff h f s).mpr hp]
    · have : filterCallback h f s = false := by
        simpa using (filterCallback_iff h f s).not.mpr hp
      simp [hp, this]
  refine ⟨?_, ?_, ?_⟩
  · apply Multiset.coe_eq_coe.mpr
    simp only [applyFilters, sortStudents]
    rw [← key]
    exact arraySort_perm _ _
  · intro s hs
    simp only [applyFilters, sortStudents] at hs
    have hs1 := (mem_arraySort _ s _).mp hs
    rw [List.mem_filter] at hs1
    exact ⟨hs1.1, (filterCallback_iff h m.filters s).mp hs1.2⟩
  · apply Multiset.coe_eq_coe.mpr
    simp only [applyFilters, sortStudents]
    refine (arraySort_perm _ _).trans ?_
    have hall : m.students.filter (filterCallback h ⟨"", "", "", ""⟩) = m.students := by
      apply List.filter_eq_self.mpr
      intro s _
      simp [filterCallback]
    rw [hall]

/-! ## Sorting -/

theorem lt_eq_keyLt (a b : JSNum) :
    JSNum.lt a b =
      keyLt ((numValue a).map SortKey.number) ((numValue b).map SortKey.number) := by
  cases a <;> cases b <;> simp [JSNum.lt, numValue, keyLt]
  exact WithBot.coe_lt_coe.mpr (WithTop.coe_lt_top _)

theorem compareFn_eq (h : Host) (cs : SortState) (a b : Student) :
    compareFn h cs a b =
      if keyLt (sortKey h cs.field a) (sortKey h cs.field b) = true then
        (if cs.direction = "asc" then -1 else 1)
      else if keyLt (sortKey h cs.field b) (sortKey h cs.field a) = true then
        (if cs.direction = "asc" then 1 else -1)
      else 0 := by
  unfold compareFn sortKey
  by_cases f1 : cs.field = "fio"
  · simp [f1, keyLt, strLt, fullName_eq_fio]
  by_cases f2 : cs.field = "faculty"
  · simp [f1, f2, keyLt, strLt]
  by_cases f3 : cs.field = "birthday"
  · simp only [f1, f2, f3, if_false, if_true]
    cases h.dateParse a.birthday <;> cases h.dateParse b.birthday <;> simp [keyLt, numLt]
  by_cases f4 : cs.field = "studyStart"
  · simp [f1, f2, f3, f4, lt_eq_keyLt]
  simp [f1, f2, f3, f4, keyLt]

theorem keyLt_asymm {a b : Option SortKey} (hab : keyLt a b = true) : keyLt b a = false := by
  rcases a with _ | (u | x) <;> rcases b with _ | (v | y) <;> simp [keyLt] at hab ⊢
  · by_contra hc
    have hc1 : unitsLt v u = true := by simpa using hc
    have := unitsLt_trans hab hc1
    rw [unitsLt_irrefl] at this
    exact absurd this (by simp)
  · exact le_of_lt hab

theorem keyLt_trans {a b c : Option SortKey} (hab : keyLt a b = true) (hbc : keyLt b c = true) :
    keyLt a c = true := by
  rcases a with _ | (u | x) <;> rcases b with _ | (v | y) <;> rcases c with _ | (w | z) <;>
    simp [keyLt] at hab hbc ⊢
  · exact unitsLt_trans hab hbc
  · exact lt_trans hab hbc

theorem keyLt_trichotomy {a b : Option SortKey} (hs : sameSort a b) (h1 : keyLt a b = false)
    (h2 : keyLt b a = false) : a = b := by
  rcases a with _ | (u | x) <;> rcases b with _ | (v | y) <;>
    simp [keyLt, sameSort] at hs h1 h2 ⊢
  · exact unitsLt_trichotomy h1 h2
  · exact le_antisymm h2 h1

theorem keyLt_neg_trans {a b c : Option SortKey} (hs : sameSort a b) (h1 : keyLt b a = false)
    (h2 : keyLt c b = false) : keyLt c a = false := by
  by_contra hc
  have hca : keyLt c a = true := by simpa using hc
  by_cases hab : keyLt a b = true
  · rw [keyLt_trans hca hab] at h2
    exact absurd h2 (by simp)
  · have hab1 : keyLt a b = false := by simpa using hab
    have heq := keyLt_trichotomy hs hab1 h1
    subst heq
    rw [hca] at h2
    exact absurd h2 (by simp)

theorem keyLe_iff {a b : Option SortKey} (hs : sameSort a b) :
    keyLe a b ↔ keyLt b a = false := by
  rcases a with _ | (u | x) <;> rcases b with _ | (v | y) <;>
    simp [keyLt, sameSort, keyLe, SortKey.le] at hs ⊢
  constructor
  · rintro (rfl | hl)
    · exact unitsLt_irrefl u
    · have h1 := (unitsLt_iff u v).mpr hl
      by_contra hc
      have hc1 : unitsLt v u = true := by simpa using hc
      have := unitsLt_trans h1 hc1
      rw [unitsLt_irrefl] at this
      exact absurd this (by simp)
  · intro hvu
    by_cases huv : unitsLt u v = true
    · exact Or.inr ((unitsLt_iff u v).mp huv)
    · exact Or.inl (unitsLt_trichotomy (by simpa using huv) hvu)

theorem sortKey_sameSort (h : Host) (field : String) (a b : Student)
    (ha : (sortKey h field a).isSome = true) (hb : (sortKey h field b).isSome = true) :
    sameSort (sortKey h field a) (sortKey h field b) := by
  unfold sortKey at ha hb ⊢
  by_cases f1 : field = "fio"
  · simp [f1, sameSort]
  by_cases f2 : field = "faculty"
  · simp [f1, f2, sameSort]
  by_cases f3 : field = "birthday"
  · simp only [f1, f2, f3, if_false, if_true] at ha hb ⊢
    cases hx : h.dateParse a.birthday <;> cases hy : h.dateParse b.birthday <;>
      simp [hx, hy, sameSort] at ha hb ⊢
  by_cases f4 : field = "studyStart"
  · simp only [f1, f2, f3, f4, if_false, if_true] at ha hb ⊢
    cases hx : numValue (parseInt a.studyStart) <;>
      cases hy : numValue (parseInt b.studyStart) <;>
      simp [hx, hy, sameSort] at ha hb ⊢
  simp [f1, f2, f3, f4] at ha

theorem compareFn_asc (h : Host) (cs : SortState) (hd : cs.direction = "asc") (a b : Student) :
    compareFn h cs a b ≤ 0 ↔ keyLt (sortKey h cs.field b) (sortKey h cs.field a) = false := by
  rw [compareFn_eq]
  by_cases h1 : keyLt (sortKey h cs.field a) (sortKey h cs.field b) = true
  · simp [h1, hd, keyLt_asymm h1]
  · by_cases h2 : keyLt (sortKey h cs.field b) (sortKey h cs.field a) = true
    · simp [h1, h2, hd]
    · simp [h1, h2]

theorem compareFn_desc (h : Host) (cs : SortState) (hd : cs.direction ≠ "asc") (a b : Student) :
    compareFn h cs a b ≤ 0 ↔ keyLt (sortKey h cs.field a) (sortKey h cs.field b) = false := by
  rw [compareFn_eq]
  by_cases h1 : keyLt (sortKey h cs.field a) (sortKey h cs.field b) = true
  · simp [h1, hd]
  · by_cases h2 : keyLt (sortKey h cs.field b) (sortKey h cs.field a) = true
    · simp [h1, h2, hd]
    · simp [h1, h2]

/-- The comparator orders a list whose keys are well defined: ascending. -/
theorem arraySort_keyLe_asc (h : Host) (cs : SortState) (hd : cs.direction = "asc")
    (l : List Student) (hkeys : ∀ s ∈ l, (sortKey h cs.field s).isSome = true) :
    (arraySort (compareFn h cs) l).Pairwise
      (fun a b => keyLe (sortKey h cs.field a) (sortKey h cs.field b)) := by
  have hP := arraySort_pairwise (compareFn h cs) l
    (by
      intro x _ y _
      by_cases hxy : keyLt (sortKey h cs.field y) (sortKey h cs.field x) = true
      · exact Or.inr ((compareFn_asc h cs hd y x).mpr (keyLt_asymm hxy))
      · exact Or.inl ((compareFn_asc h cs hd x y).mpr (by simpa using hxy)))
    (by
      intro x hx y hy z _ hxy hyz
      rw [compareFn_asc h cs hd] at hxy hyz ⊢
      exact keyLt_neg_trans (sortKey_sameSort h cs.field x y (hkeys x hx) (hkeys y hy)) hxy hyz)
  refine (List.Pairwise.and_mem.mp hP).imp ?_
  rintro a b ⟨ha, hb, hab⟩
  have ha1 := hkeys a ((mem_arraySort _ a l).mp ha)
  have hb1 := hkeys b ((mem_arraySort _ b l).mp hb)
  exact (keyLe_iff (sortKey_sameSort h cs.field a b ha1 hb1)).mpr
    ((compareFn_asc h cs hd a b).mp hab)

/-- The comparator orders a list whose keys are well defined: descending. -/
theorem arraySort_keyLe_desc (h : Host) (cs : SortState) (hd : cs.direction ≠ "asc")
    (l : List Student) (hkeys : ∀ s ∈ l, (sortKey h cs.field s).isSome = true) :
    (arraySort (compareFn h cs) l).Pairwise
      (fun a b => keyLe (sortKey h cs.field b) (sortKey h cs.field a)) := by
  have hP := arraySort_pairwise (compareFn h cs) l
    (by
      intro x _ y _
      by_cases hxy : keyLt (sortKey h cs.field x) (sortKey h cs.field y) = true
      · exact Or.inr ((compareFn_desc h cs hd y x).mpr (keyLt_asymm hxy))
      · exact Or.inl ((compareFn_desc h cs hd x y).mpr (by simpa using hxy)))
    (by
      intro x _ y hy z hz hxy hyz
      rw [compareFn_desc h cs hd] at hxy hyz ⊢
      exact keyLt_neg_trans (sortKey_sameSort h cs.field z y (hkeys z hz) (hkeys y hy)) hyz hxy)
  refine (List.Pairwise.and_mem.mp hP).imp ?_
  rintro a b ⟨ha, hb, hab⟩
  have ha1 := hkeys a ((mem_arraySort _ a l).mp ha)
  have hb1 := hkeys b ((mem_arraySort _ b l).mp hb)
  exact (keyLe_iff (sortKey_sameSort h cs.field b a hb1 ha1)).mpr
    ((compareFn_desc h cs hd a b).mp hab)

/-- Records with one and the same key are tied under the comparator. -/
theorem compareFn_tied (h : Host) (cs : SortState) (a b : Student)
    (hk : sortKey h cs.field a = sortKey h cs.field b) : compareFn h cs a b ≤ 0 := by
  have hirr : keyLt (sortKey h cs.field b) (sortKey h cs.field b) = false := by
    by_contra hc
    have hc1 : keyLt (sortKey h cs.field b) (sortKey h cs.field b) = true := by simpa using hc
    rw [keyLt_asymm hc1] at hc1
    exact absurd hc1 (by simp)
  rw [compareFn_eq, hk, hirr]
  simp

/-- Claim C2. When every record of `filteredStudents` has a well-defined key under the active
field (always so for `fio` and `faculty`; the birthday parses to a date for `birthday`; the
enrollment year parses to an integer for `studyStart`), `sortStudents` leaves a permutation
of the list in which the keys of consecutive records, and of any earlier and later record,
are non-decreasing for direction `asc` and non-increasing for direction `desc`; the records
that share a key keep their order, and so does any pair of records with equal keys. -/
theorem sortStudents_sorted_stable (h : Host) (m : StudentManager)
    (hkeys : ∀ s ∈ m.filteredStudents, (sortKey h m.currentSort.field s).isSome = true) :
    (sortStudents h m).filteredStudents.Perm m.filteredStudents ∧
    (m.currentSort.direction = "asc" →
      (sortStudents h m).filteredStudents.Chain'
          (fun a b => keyLe (sortKey h m.currentSort.field a) (sortKey h m.currentSort.field b)) ∧
      (sortStudents h m).filteredStudents.Pairwise
          (fun a b => keyLe (sortKey h m.currentSort.field a) (sortKey h m.currentSort.field b))) ∧
    (m.currentSort.direction = "desc" →
      (sortStudents h m).filteredStudents.Chain'
          (fun a b => keyLe (sortKey h m.currentSort.field b) (sortKey h m.currentSort.field a)) ∧
      (sortStudents h m).filteredStudents.Pairwise
          (fun a b => keyLe (sortKey h m.currentSort.field b) (sortKey h m.currentSort.field a))) ∧
    (∀ k : Option SortKey,
      (sortStudents h m).filteredStudents.filter
          (fun s => decide (sortKey h m.currentSort.field s = k)) =
        m.filteredStudents.filter (fun s => decide (sortKey h m.currentSort.field s = k))) ∧
    (∀ a b : Student, sortKey h m.currentSort.field a = sortKey h m.currentSort.field b →
      [a, b].Sublist m.filteredStudents →
      [a, b].Sublist (sortStudents h m).filteredStudents) := by
  have hstable : ∀ k : Option SortKey,
      (arraySort (compareFn h m.currentSort) m.filteredStudents).filter
          (fun s => decide (sortKey h m.currentSort.field s = k)) =
        m.filteredStudents.filter (fun s => decide (sortKey h m.currentSort.field s = k)) := by
    intro k
    apply arraySort_filter
    intro x _ y _ hx hy
    apply compareFn_tied
    rw [of_decide_eq_true hx, of_decide_eq_true hy]
  refine ⟨arraySort_perm _ _, ?_, ?_, hstable, ?_⟩
  · intro hd
    have hP := arraySort_keyLe_asc h m.currentSort hd m.filteredStudents hkeys
    exact ⟨hP.chain', hP⟩
  · intro hd
    have hne : m.currentSort.direction ≠ "asc" := by
      rw [hd]
      decide
    have hP := arraySort_keyLe_desc h m.currentSort hne m.filteredStudents hkeys
    exact ⟨hP.chain', hP⟩
  · intro a b hk hsub
    have h1 := hsub.filter (fun s => decide (sortKey h m.currentSort.field s =
      sortKey h m.currentSort.field b))
    rw [← hstable] at h1
    have h2 : [a, b].filter (fun s => decide (sortKey h m.currentSort.field s =
        sortKey h m.currentSort.field b)) = [a, b] := by
      simp [hk]
    rw [h2] at h1
    exact h1.trans (List.filter_sublist _)

/-- Claim C2, at a concrete input: two records sorted by name, ascending. The record with
surname `А` comes first although it is second in the view. -/
theorem sortStudents_sorted_stable_witness :
    (∀ s ∈ managerByName.filteredStudents,
      (sortKey utcHost managerByName.currentSort.field s).isSome = true) ∧
    (sortStudents utcHost managerByName).filteredStudents = [studentA, studentB] ∧
    (sortStudents utcHost managerByName).filteredStudents.Perm
      managerByName.filteredStudents ∧
    (sortStudents utcHost managerByName).filteredStudents.Chain'
      (fun a b => keyLe (sortKey utcHost managerByName.currentSort.field a)
        (sortKey utcHost managerByName.currentSort.field b)) :=
  ⟨by decide, by decide, (sortStudents_sorted_stable utcHost managerByName (by decide)).1,
    ((sortStudents_sorted_stable utcHost managerByName (by decide)).2.1 rfl).1⟩

/-! ## Validation -/

theorem parseInt_empty : parseInt (JSVal.str "") = JSNum.nan := by decide

theorem push_if (c : Prop) [Decidable c] (l : List String) (m : String) :
    (if c then l ++ [m] else l) = l ++ (if c then [m] else []) := by
  split <;> simp

theorem expected_cons (b : Bool) (m : String) (rules : List (Bool × String)) :
    (((b, m) :: rules).filter (fun rule => rule.1)).map (fun rule => rule.2) =
      (if b = true then [m] else []) ++
        (rules.filter (fun rule => rule.1)).map (fun rule => rule.2) := by
  cases b <;> simp

/-- Claim C3. For every candidate and every current instant, `validateStudent` returns the
messages of the violated rules, one message for each violated rule and in the fixed order
of the rules: the six required fields in field order, the birthday before 1900-01-01, the
birthday after the current instant, the enrollment year below 2000, the enrollment year
above the current year. So the list is non-empty as soon as one rule is violated. -/
theorem validateStudent_errors (h : Host) (now : Int) (c : Candidate) :
    validateStudent h now c = expectedErrors h now c ∧
    ((∃ rule ∈ validationRules h now c, rule.1 = true) ↔ validateStudent h now c ≠ []) := by
  have hmain : validateStudent h now c = expectedErrors h now c := by
    have hbefore : c.birthday ≠ "" →
        numLt (h.dateParse c.birthday) (h.dateParse "1900-01-01") = birthdayBeforeMinDate h c := by
      intro _
      unfold birthdayBeforeMinDate minDate
      rw [h.parse_minDate]
      cases h.dateParse c.birthday <;> simp [numLt]
    have hfuture : c.birthday ≠ "" →
        numLt (some now) (h.dateParse c.birthday) = birthdayInFuture h now c := by
      intro _
      unfold birthdayInFuture
      cases h.dateParse c.birthday <;> simp [numLt]
    have hlow : JSNum.lt (parseInt (JSVal.str c.studyStart)) (JSNum.fin 2000) =
        yearBefore2000 c := by
      unfold yearBefore2000
      cases parseInt (JSVal.str c.studyStart) <;> simp [JSNum.lt]
    have hhigh : JSNum.lt (JSNum.fin (h.getFullYear now)) (parseInt (JSVal.str c.studyStart)) =
        yearInFuture h now c := by
      unfold yearInFuture
      cases parseInt (JSVal.str c.studyStart) <;> simp [JSNum.lt]
    have hb0 : c.birthday = "" → birthdayBeforeMinDate h c = false ∧
        birthdayInFuture h now c = false := by
      intro hb
      unfold birthdayBeforeMinDate birthdayInFuture
      rw [hb, h.parse_empty]
      exact ⟨rfl, rfl⟩
    have hs0 : c.studyStart = "" → yearBefore2000 c = false ∧ yearInFuture h now c = false := by
      intro hs
      unfold yearBefore2000 yearInFuture
      rw [hs, parseInt_empty]
      exact ⟨rfl, rfl⟩
    unfold validateStudent expectedErrors validationRules
    simp only [expected_cons, List.filter_nil, List.map_nil, hlow, hhigh]
    by_cases hb : c.birthday = ""
    · by_cases hs : c.studyStart = ""
      · simp only [(hb0 hb).1, (hb0 hb).2, (hs0 hs).1, (hs0 hs).2, ne_eq, hb, hs, not_true_eq_false,
          not_false_eq_true, if_true, if_false, push_if]
        simp
      · simp only [(hb0 hb).1, (hb0 hb).2, ne_eq, hb, hs, not_true_eq_false,
          not_false_eq_true, if_true, if_false, push_if]
        simp
    · by_cases hs : c.studyStart = ""
      · simp only [hbefore hb, hfuture hb, (hs0 hs).1, (hs0 hs).2, ne_eq, hb, hs, not_true_eq_false,
          not_false_eq_true, if_true, if_false, push_if]
        simp
      · simp only [hbefore hb, hfuture hb, ne_eq, hb, hs, not_true_eq_false,
          not_false_eq_true, if_true, if_false, push_if]
        simp
  refine ⟨hmain, ?_⟩
  rw [hmain]
  unfold expectedErrors
  constructor
  · rintro ⟨rule, hmem, hv⟩ hnil
    have hmem1 : rule ∈ (validationRules h now c).filter (fun rule => rule.1) :=
      List.mem_filter.mpr ⟨hmem, hv⟩
    have hnil1 := List.map_eq_nil_iff.mp hnil
    rw [hnil1] at hmem1
    exact absurd hmem1 (List.not_mem_nil _)
  · intro hne
    have hne1 : (validationRules h now c).filter (fun rule => rule.1) ≠ [] := by
      intro hc
      exact hne (by rw [hc]; rfl)
    obtain ⟨rule, hrule⟩ := List.exists_mem_of_ne_nil _ hne1
    exact ⟨rule, (List.mem_filter.mp hrule).1, (List.mem_filter.mp hrule).2⟩

/-- Claim C4, the code at the failing inputs. A candidate whose enrollment year is the text
`abc`, and one whose birthday is the text `вчера`, pass `validateStudent` with an empty
error list although the year reads as no integer and the birthday as no date. -/
theorem validateStudent_accepts_unparsable :
    validateStudent utcHost june2024 candidateBadYear = [] ∧
    parseInt (JSVal.str candidateBadYear.studyStart) = JSNum.nan ∧
    validateStudent utcHost june2024 candidateBadBirthday = [] ∧
    utcHost.dateParse candidateBadBirthday.birthday = none := by
  decide

/-! ## Derived fields -/

theorem course_text_ne (t : String) : t ++ " курс" ≠ "закончил" := by
  intro heq
  have h1 := congrArg (fun x : String => x.data.reverse.head?) heq
  simp only [String.data_append, List.reverse_append] at h1
  have h2 : " курс".data.reverse = ['с', 'р', 'у', 'к', ' '] := by decide
  have h3 : "закончил".data.reverse.head? = some 'л' := by decide
  rw [h2, h3] at h1
  simp at h1

/-- What `getStudyInfo` returns when the enrollment year parses to `s` and the numbers it
computes stay within the safe integers. -/
theorem getStudyInfo_of_parse (h : Host) (now : Int) (student : Student) (s : Int)
    (hs : parseInt student.studyStart = JSNum.fin s) (hsafe : safeInt s)
    (hend : safeInt (s + 4)) (hdiff : safeInt (h.getFullYear now - s))
    (hcourse : safeInt (h.getFullYear now - s + 1)) :
    getStudyInfo h now student =
      { period := toString s ++ "-" ++ toString (s + 4),
        courseInfo :=
          if h.getFullYear now > s + 4 ∨ (h.getFullYear now = s + 4 ∧ h.getMonth now ≥ 8) then
            "закончил"
          else
            toString (h.getFullYear now - s + (if h.getMonth now ≥ 8 then 1 else 0)) ++ " курс" } ∧
    course h now student =
      JSNum.fin (h.getFullYear now - s + (if h.getMonth now ≥ 8 then 1 else 0)) := by
  unfold safeInt at hsafe hend hdiff hcourse
  have e1 : JSNum.add (JSNum.fin s) (JSNum.fin 4) = JSNum.fin (s + 4) :=
    toDouble_of_safe _ hend.1 hend.2
  have e2 : JSNum.sub (JSNum.fin (h.getFullYear now)) (JSNum.fin s) =
      JSNum.fin (h.getFullYear now - s) :=
    toDouble_of_safe _ hdiff.1 hdiff.2
  have hc : course h now student =
      JSNum.fin (h.getFullYear now - s + (if h.getMonth now ≥ 8 then 1 else 0)) := by
    unfold course
    rw [hs, e2]
    exact toDouble_of_safe _ (by split <;> omega) (by split <;> omega)
  refine ⟨?_, hc⟩
  unfold getStudyInfo
  rw [hc, hs]
  have hcond : (JSNum.lt (JSNum.fin (s + 4)) (JSNum.fin (h.getFullYear now)) = true ∨
      (JSNum.fin (s + 4) = JSNum.fin (h.getFullYear now) ∧ h.getMonth now ≥ 8)) ↔
      (h.getFullYear now > s + 4 ∨ (h.getFullYear now = s + 4 ∧ h.getMonth now ≥ 8)) := by
    simp only [lt_fin_fin, decide_eq_true_eq, JSNum.fin.injEq]
    constructor
    · rintro (h1 | ⟨h1, h2⟩)
      · exact Or.inl h1
      · exact Or.inr ⟨h1.symm, h2⟩
    · rintro (h1 | ⟨h1, h2⟩)
      · exact Or.inl h1
      · exact Or.inr ⟨h1.symm, h2⟩
  simp only [e1, hcond]
  rw [numberToString_of_safe _ hsafe.1 hsafe.2, numberToString_of_safe _ hend.1 hend.2,
    numberToString_of_safe _ (by split <;> omega) (by split <;> omega)]

/-- Claim C7, as stated, fails beyond the safe integers: the enrollment year
`9007199254740989` parses to that integer, and the end year, four more, is rounded to the
nearest double, `9007199254740992`; the period does not end in `9007199254740993`. -/
theorem period_rounds_beyond_safe_integers :
    parseInt studentStartLarge.studyStart = JSNum.fin 9007199254740989 ∧
    (getStudyInfo utcHost march2024 studentStartLarge).period =
      "9007199254740989-9007199254740992" ∧
    (getStudyInfo utcHost march2024 studentStartLarge).period ≠
      toString (9007199254740989 : Int) ++ "-" ++ toString ((9007199254740989 : Int) + 4) := by
  decide

/-- Claim C7, amended. For a student whose enrollment year parses to the integer `s`, and a
current date of year `Y` and zero-based month `M`, such that `s`, `s + 4`, `Y - s` and
`Y - s + 1` are safe integers, `getStudyInfo` returns the period `s-(s+4)` in decimal text;
`courseInfo` is `закончил` exactly when `Y > s + 4`, or `Y = s + 4` and `M ≥ 8`; otherwise
it is `N курс` with `N = Y - s + 1` when `M ≥ 8` and `N = Y - s` when `M < 8`. -/
theorem getStudyInfo_period_course (h : Host) (now : Int) (student : Student) (s : Int)
    (hs : parseInt student.studyStart = JSNum.fin s) (hsafe : safeInt s)
    (hend : safeInt (s + 4)) (hdiff : safeInt (h.getFullYear now - s))
    (hcourse : safeInt (h.getFullYear now - s + 1)) :
    (getStudyInfo h now student).period = toString s ++ "-" ++ toString (s + 4) ∧
    ((getStudyInfo h now student).courseInfo = "закончил" ↔
      (h.getFullYear now > s + 4 ∨ (h.getFullYear now = s + 4 ∧ h.getMonth now ≥ 8))) ∧
    (¬ (h.getFullYear now > s + 4 ∨ (h.getFullYear now = s + 4 ∧ h.getMonth now ≥ 8)) →
      (h.getMonth now ≥ 8 →
        (getStudyInfo h now student).courseInfo =
          toString (h.getFullYear now - s + 1) ++ " курс") ∧
      (h.getMonth now < 8 →
        (getStudyInfo h now student).courseInfo =
          toString (h.getFullYear now - s) ++ " курс")) := by
  rw [(getStudyInfo_of_parse h now student s hs hsafe hend hdiff hcourse).1]
  refine ⟨rfl, ?_, ?_⟩
  · constructor
    · intro hc
      by_contra hn
      simp only [hn, if_false] at hc
      exact course_text_ne _ hc
    · intro hc
      simp only [hc, if_true]
  · intro hn
    simp only [hn, if_false]
    constructor
    · intro hm
      simp only [hm, if_true]
    · intro hm
      have hm1 : ¬ h.getMonth now ≥ 8 := by omega
      simp only [hm1, if_false, add_zero]

/-- Claim C7, amended, at a concrete input: enrolled in 2024 and read in March 2024. -/
theorem getStudyInfo_period_course_witness :
    parseInt studentStart2024.studyStart = JSNum.fin 2024 ∧
    (getStudyInfo utcHost march2024 studentStart2024).period =
      toString (2024 : Int) ++ "-" ++ toString ((2024 : Int) + 4) ∧
    (getStudyInfo utcHost march2024 studentStart2024).period = "2024-2028" :=
  ⟨by decide,
    (getStudyInfo_period_course utcHost march2024 studentStart2024 2024 (by decide)
      (by unfold safeInt; decide) (by unfold safeInt; decide) (by unfold safeInt; decide)
      (by unfold safeInt; decide)).1,
    by decide⟩

/-- Claim C10, as stated, fails: a record enrolled in 2024, a year that passes validation in
March 2024, is not reported as finished and is shown the course number 0. -/
theorem course_zero_before_september :
    validateStudent utcHost march2024 candidateStart2024 = [] ∧
    parseInt studentStart2024.studyStart = JSNum.fin 2024 ∧
    (2000 : Int) ≤ 2024 ∧ (2024 : Int) ≤ utcHost.getFullYear march2024 ∧
    (getStudyInfo utcHost march2024 studentStart2024).courseInfo ≠ "закончил" ∧
    course utcHost march2024 studentStart2024 = JSNum.fin 0 ∧
    (getStudyInfo utcHost march2024 studentStart2024).courseInfo = "0 курс" := by
  decide

/-- Claim C10, amended. For a student whose enrollment year `s` lies within 2000 and the
current year, if `getStudyInfo` does not report `закончил` then it reports `n курс` for the
course number `n` it computed, and `n` lies between 0 and 4; `n` is at least 1 once the
enrollment year is past or the month is September or later. -/
theorem course_between_zero_and_four (h : Host) (now : Int) (student : Student) (s : Int)
    (hs : parseInt student.studyStart = JSNum.fin s) (hlow : 2000 ≤ s)
    (hhigh : s ≤ h.getFullYear now)
    (hnf : (getStudyInfo h now student).courseInfo ≠ "закончил") :
    ∃ n : Int, course h now student = JSNum.fin n ∧
      (getStudyInfo h now student).courseInfo = toString n ++ " курс" ∧
      0 ≤ n ∧ n ≤ 4 ∧ ((s < h.getFullYear now ∨ h.getMonth now ≥ 8) → 1 ≤ n) := by
  have hy := h.year_range now
  have hinfo := getStudyInfo_of_parse h now student s hs
    (by unfold safeInt; omega) (by unfold safeInt; omega) (by unfold safeInt; omega)
    (by unfold safeInt; omega)
  rw [hinfo.1] at hnf ⊢
  by_cases hc : h.getFullYear now > s + 4 ∨ (h.getFullYear now = s + 4 ∧ h.getMonth now ≥ 8)
  · simp only [hc, if_true] at hnf
    exact absurd rfl hnf
  · refine ⟨h.getFullYear now - s + (if h.getMonth now ≥ 8 then 1 else 0), hinfo.2, ?_, ?_, ?_,
      ?_⟩
    · simp only [hc, if_false]
    · split <;> omega
    · split <;> omega
    · intro hor
      split <;> omega

/-- Claim C10, amended, at a concrete input: enrolled in 2024 and read in March 2024. -/
theorem course_between_zero_and_four_witness :
    ∃ n : Int, course utcHost march2024 studentStart2024 = JSNum.fin n ∧
      (getStudyInfo utcHost march2024 studentStart2024).courseInfo = toString n ++ " курс" ∧
      0 ≤ n ∧ n ≤ 4 ∧
      (((2024 : Int) < utcHost.getFullYear march2024 ∨ utcHost.getMonth march2024 ≥ 8) → 1 ≤ n) :=
  course_between_zero_and_four utcHost march2024 studentStart2024 2024 (by decide) (by decide)
    (by decide) (by decide)

/-- The age relative to the local calendar date of the parsed birthday. When the birthday
parses to the instant `t`, `calculateAge` returns the whole years from the local date of `t`
to the local current date; that number is non-negative for a current date not earlier than
the local date of `t`, does not decrease as the current date advances, and on a date with
the month and day of the local date of `t` is one more than on any date of the twelve
months before. -/
theorem calculateAge_local_date (h : Host) (birthday : String) (t : Int)
    (hparse : h.dateParse birthday = some t) :
    (∀ now, calculateAge h now birthday =
      JSNum.fin (wholeYears (calendarDate h t) (calendarDate h now))) ∧
    (∀ now, (calendarDate h t).le (calendarDate h now) →
      0 ≤ wholeYears (calendarDate h t) (calendarDate h now)) ∧
    (∀ now later, (calendarDate h now).le (calendarDate h later) →
      wholeYears (calendarDate h t) (calendarDate h now) ≤
        wholeYears (calendarDate h t) (calendarDate h later)) ∧
    (∀ now before, (calendarDate h now).month = (calendarDate h t).month →
      (calendarDate h now).day = (calendarDate h t).day →
      (calendarDate h before).lt (calendarDate h now) →
      CalendarDate.le
        { year := (calendarDate h now).year - 1, month := (calendarDate h t).month,
          day := (calendarDate h t).day } (calendarDate h before) →
      wholeYears (calendarDate h t) (calendarDate h now) =
        wholeYears (calendarDate h t) (calendarDate h before) + 1) := by
  refine ⟨?_, ?_, ?_, ?_⟩
  · intro now
    unfold calculateAge wholeYears calendarDate
    rw [hparse]
    simp only
    by_cases hc : h.getMonth now - h.getMonth t < 0 ∨
        (h.getMonth now - h.getMonth t = 0 ∧ h.getDate now < h.getDate t)
    · have hc1 : h.getMonth now < h.getMonth t ∨
          (h.getMonth now = h.getMonth t ∧ h.getDate now < h.getDate t) := by omega
      simp only [hc, hc1, if_true]
    · have hc1 : ¬ (h.getMonth now < h.getMonth t ∨
          (h.getMonth now = h.getMonth t ∧ h.getDate now < h.getDate t)) := by omega
      simp only [hc, hc1, if_false, sub_zero]
  · intro now hle
    unfold wholeYears
    unfold CalendarDate.le at hle
    split <;> omega
  · intro now later hle
    unfold wholeYears
    unfold CalendarDate.le at hle
    split <;> split <;> omega
  · intro now before hm hd hlt hle
    unfold wholeYears
    unfold CalendarDate.le at hle
    unfold CalendarDate.lt at hlt
    simp only at hle
    split <;> split <;> omega

/-- Claim C8, the code at the failing input. On a host four hours behind UTC the birthday
`2000-05-01`, which the engine reads as midnight UTC, has the local date 30 April 2000. At
local noon of 30 April 2024 `calculateAge` returns 24, for the date-only text and for the
text that `toISOString` stores alike; the whole years from 1 May 2000 to 30 April 2024
are 23. -/
theorem calculateAge_day_early_west_of_utc :
    westHost.dateParse "2000-05-01" = some 957139200000 ∧
    calendarDate westHost 957139200000 = { year := 2000, month := 3, day := 30 } ∧
    calendarDate westHost april30noonWest = { year := 2024, month := 3, day := 30 } ∧
    calculateAge westHost april30noonWest "2000-05-01" = JSNum.fin 24 ∧
    calculateAge westHost april30noonWest "2000-05-01T00:00:00.000Z" = JSNum.fin 24 ∧
    wholeYears { year := 2000, month := 4, day := 1 } { year := 2024, month := 3, day := 30 } =
      23 := by
  decide

/-! ## Sort state -/

/-- Claim C9. `handleSort` keeps the field and flips the direction when the requested field
is the active one (`asc` becomes `desc`, `desc` becomes `asc`), and otherwise makes the
requested field active with direction `asc`; two consecutive requests for the active field
restore the sort state; `students` and `filters` are never changed. The direction of the
state is `asc` or `desc`, the only values the controller ever stores. -/
theorem handleSort_toggles (h : Host) (m : StudentManager) (f : String)
    (hdir : m.currentSort.direction = "asc" ∨ m.currentSort.direction = "desc") :
    (f = m.currentSort.field →
      (handleSort h m f).currentSort.field = m.currentSort.field ∧
      (m.currentSort.direction = "asc" → (handleSort h m f).currentSort.direction = "desc") ∧
      (m.currentSort.direction = "desc" → (handleSort h m f).currentSort.direction = "asc")) ∧
    (f ≠ m.currentSort.field →
      (handleSort h m f).currentSort = { field := f, direction := "asc" }) ∧
    (handleSort h (handleSort h m m.currentSort.field) m.currentSort.field).currentSort =
      m.currentSort ∧
    (handleSort h m f).students = m.students ∧
    (handleSort h m f).filters = m.filters := by
  refine ⟨?_, ?_, ?_, ?_, ?_⟩
  · intro hf
    subst hf
    refine ⟨?_, ?_, ?_⟩
    · simp [handleSort, sortStudents]
    · intro hd
      simp [handleSort, sortStudents, hd]
    · intro hd
      simp [handleSort, sortStudents, hd]
  · intro hf
    have hf1 : ¬ m.currentSort.field = f := fun hc => hf hc.symm
    simp [handleSort, sortStudents, hf1]
  · rcases hdir with hd | hd
    · have e : m.currentSort = { field := m.currentSort.field, direction := "asc" } := by
        rw [← hd]
      simp [handleSort, sortStudents, hd]
      exact e.symm
    · have e : m.currentSort = { field := m.currentSort.field, direction := "desc" } := by
        rw [← hd]
      simp [handleSort, sortStudents, hd]
      exact e.symm
  · unfold handleSort sortStudents
    split <;> rfl
  · unfold handleSort sortStudents
    split <;> rfl

/-- Claim C9, at a concrete input: a click on the active header of the initial state. -/
theorem handleSort_toggles_witness :
    (handleSort utcHost initial "fio").currentSort.field = "fio" ∧
    (handleSort utcHost initial "fio").currentSort.direction = "desc" :=
  ⟨((handleSort_toggles utcHost initial "fio" (Or.inl rfl)).1 rfl).1,
    ((handleSort_toggles utcHost initial "fio" (Or.inl rfl)).1 rfl).2.1 rfl⟩

/-! ## The controller as a state machine -/

theorem sortStudents_frame (h : Host) (m : StudentManager) :
    (sortStudents h m).students = m.students ∧ (sortStudents h m).filters = m.filters ∧
    (sortStudents h m).currentSort = m.currentSort :=
  ⟨rfl, rfl, rfl⟩

/-- What `applyFilters` leaves: the view of the unchanged list, filters and sort state. -/
theorem applyFilters_eq_view (h : Host) (m : StudentManager) :
    (applyFilters h m).filteredStudents = view h m.students m.filters m.currentSort ∧
    (applyFilters h m).students = m.students ∧ (applyFilters h m).filters = m.filters ∧
    (applyFilters h m).currentSort = m.currentSort :=
  ⟨rfl, rfl, rfl, rfl⟩

theorem view_perm (h : Host) (students : List Student) (filters : Filters) (sort : SortState) :
    (view h students filters sort).Perm (students.filter (filterCallback h filters)) :=
  arraySort_perm _ _

/-- Every operation keeps the view a rearrangement of the records that pass the filters. -/
theorem step_perm (h : Host) (m : StudentManager) (op : Op)
    (hm : m.filteredStudents.Perm (m.students.filter (filterCallback h m.filters))) :
    (step h m op).filteredStudents.Perm
      ((step h m op).students.filter (filterCallback h (step h m op).filters)) := by
  cases op with
  | filterFio value => exact view_perm h _ _ _
  | filterFaculty value => exact view_perm h _ _ _
  | filterStartYear value => exact view_perm h _ _ _
  | filterEndYear value => exact view_perm h _ _ _
  | load response =>
    cases response with
    | ok body => exact view_perm h _ _ _
    | notOk => exact hm
    | failed => exact hm
  | submit now form response =>
    simp only [step, handleFormSubmit]
    split
    · exact hm
    · unfold createStudent
      split
      · exact hm
      · cases response with
        | ok body => exact view_perm h _ _ _
        | notOk => exact hm
        | failed => exact hm
  | delete studentId confirmed response =>
    simp only [step, deleteStudent]
    split
    · exact hm
    · cases response with
      | ok body => exact view_perm h _ _ _
      | notOk => exact hm
      | failed => exact hm
  | sort field =>
    simp only [step, handleSort]
    split
    · exact (arraySort_perm _ _).trans hm
    · exact (arraySort_perm _ _).trans hm

theorem run_append (h : Host) (pre : List Op) (op : Op) (m : StudentManager) :
    run h (pre ++ [op]) m = step h (run h pre m) op := by
  simp [run, List.foldl_append]

theorem run_perm (h : Host) (ops : List Op) :
    (run h ops initial).filteredStudents.Perm
      ((run h ops initial).students.filter (filterCallback h (run h ops initial).filters)) := by
  induction ops using List.reverseRecOn with
  | nil => exact List.Perm.refl _
  | append_singleton pre op ih =>
    rw [run_append]
    exact step_perm h _ op ih

/-- An operation that reaches `applyFilters` leaves the view of its final list, filters and
sort state. -/
theorem step_view (h : Host) (m : StudentManager) (op : Op)
    (hop : callsApplyFilters h op = true) :
    (step h m op).filteredStudents =
      view h (step h m op).students (step h m op).filters (step h m op).currentSort := by
  cases op with
  | filterFio value => rfl
  | filterFaculty value => rfl
  | filterStartYear value => rfl
  | filterEndYear value => rfl
  | load response =>
    cases response with
    | ok body => rfl
    | notOk => simp [callsApplyFilters] at hop
    | failed => simp [callsApplyFilters] at hop
  | submit now form response =>
    cases response with
    | ok body =>
      simp only [callsApplyFilters, Bool.and_eq_true, decide_eq_true_eq] at hop
      obtain ⟨hv, hd⟩ := hop
      obtain ⟨t, ht⟩ := Option.isSome_iff_exists.mp hd
      simp only [step, handleFormSubmit, hv, List.length_nil, gt_iff_lt, lt_self_iff_false,
        if_false, createStudent, ht]
      rfl
    | notOk => simp [callsApplyFilters] at hop
    | failed => simp [callsApplyFilters] at hop
  | delete studentId confirmed response =>
    cases response with
    | ok body =>
      simp only [callsApplyFilters] at hop
      subst hop
      rfl
    | notOk => simp [callsApplyFilters] at hop
    | failed => simp [callsApplyFilters] at hop
  | sort field => simp [callsApplyFilters] at hop

/-- The direction stored in a reachable state is `asc` or `desc`. -/
theorem run_direction (h : Host) (ops : List Op) :
    (run h ops initial).currentSort.direction = "asc" ∨
      (run h ops initial).currentSort.direction = "desc" := by
  induction ops using List.reverseRecOn with
  | nil => exact Or.inl rfl
  | append_singleton pre op ih =>
    rw [run_append]
    cases op with
    | filterFio value => exact ih
    | filterFaculty value => exact ih
    | filterStartYear value => exact ih
    | filterEndYear value => exact ih
    | load response =>
      cases response with
      | ok body => exact ih
      | notOk => exact ih
      | failed => exact ih
    | submit now form response =>
      simp only [step, handleFormSubmit]
      split
      · exact ih
      · unfold createStudent
        split
        · exact ih
        · cases response with
          | ok body => exact ih
          | notOk => exact ih
          | failed => exact ih
    | delete studentId confirmed response =>
      simp only [step, deleteStudent]
      split
      · exact ih
      · cases response with
        | ok body => exact ih
        | notOk => exact ih
        | failed => exact ih
    | sort field =>
      simp only [step, handleSort]
      split
      · simp only [sortStudents]
        split
        · exact Or.inr rfl
        · exact Or.inl rfl
      · exact Or.inl rfl

/-- The sort orders a list whose keys are well defined, in the direction of the sort. -/
theorem arraySort_keyOrdered (h : Host) (cs : SortState) (l : List Student)
    (hkeys : ∀ s ∈ l, (sortKey h cs.field s).isSome = true) :
    (arraySort (compareFn h cs) l).Pairwise
      (fun a b => keyOrdered cs.direction (sortKey h cs.field a) (sortKey h cs.field b)) := by
  by_cases hd : cs.direction = "asc"
  · have hP := arraySort_keyLe_asc h cs hd l hkeys
    refine hP.imp ?_
    intro a b hab
    simpa [keyOrdered, hd] using hab
  · have hP := arraySort_keyLe_desc h cs hd l hkeys
    refine hP.imp ?_
    intro a b hab
    simpa [keyOrdered, hd] using hab

/-- An operation either changes nothing or leaves a view that the sort has just produced
under the sort state it leaves. -/
theorem step_cases (h : Host) (m : StudentManager) (op : Op) :
    step h m op = m ∨
      ∃ l, (step h m op).filteredStudents =
        arraySort (compareFn h (step h m op).currentSort) l := by
  cases op with
  | filterFio value => exact Or.inr ⟨_, rfl⟩
  | filterFaculty value => exact Or.inr ⟨_, rfl⟩
  | filterStartYear value => exact Or.inr ⟨_, rfl⟩
  | filterEndYear value => exact Or.inr ⟨_, rfl⟩
  | load response =>
    cases response with
    | ok body => exact Or.inr ⟨_, rfl⟩
    | notOk => exact Or.inl rfl
    | failed => exact Or.inl rfl
  | submit now form response =>
    simp only [step, handleFormSubmit]
    split
    · exact Or.inl rfl
    · unfold createStudent
      split
      · exact Or.inl rfl
      · cases response with
        | ok body => exact Or.inr ⟨_, rfl⟩
        | notOk => exact Or.inl rfl
        | failed => exact Or.inl rfl
  | delete studentId confirmed response =>
    simp only [step, deleteStudent]
    split
    · exact Or.inl rfl
    · cases response with
      | ok body => exact Or.inr ⟨_, rfl⟩
      | notOk => exact Or.inl rfl
      | failed => exact Or.inl rfl
  | sort field =>
    simp only [step, handleSort]
    split
    · exact Or.inr ⟨_, rfl⟩
    · exact Or.inr ⟨_, rfl⟩

/-- Every operation leaves a view that is ordered by the active sort, when the keys of its
records are well defined. -/
theorem step_sorted (h : Host) (m : StudentManager) (op : Op)
    (hm : (∀ s ∈ m.filteredStudents, (sortKey h m.currentSort.field s).isSome = true) →
      m.filteredStudents.Pairwise (fun a b => keyOrdered m.currentSort.direction
        (sortKey h m.currentSort.field a) (sortKey h m.currentSort.field b)))
    (hkeys : ∀ s ∈ (step h m op).filteredStudents,
      (sortKey h (step h m op).currentSort.field s).isSome = true) :
    (step h m op).filteredStudents.Pairwise
      (fun a b => keyOrdered (step h m op).currentSort.direction
        (sortKey h (step h m op).currentSort.field a)
        (sortKey h (step h m op).currentSort.field b)) := by
  rcases step_cases h m op with e | ⟨l, e⟩
  · rw [e] at hkeys ⊢
    exact hm hkeys
  · rw [e] at hkeys ⊢
    exact arraySort_keyOrdered h _ l (fun s hs => hkeys s ((mem_arraySort _ s l).mpr hs))

theorem run_sorted (h : Host) (ops : List Op)
    (hkeys : ∀ s ∈ (run h ops initial).filteredStudents,
      (sortKey h (run h ops initial).currentSort.field s).isSome = true) :
    (run h ops initial).filteredStudents.Pairwise
      (fun a b => keyOrdered (run h ops initial).currentSort.direction
        (sortKey h (run h ops initial).currentSort.field a)
        (sortKey h (run h ops initial).currentSort.field b)) := by
  induction ops using List.reverseRecOn with
  | nil => exact List.Pairwise.nil
  | append_singleton pre op ih =>
    rw [run_append] at hkeys ⊢
    exact step_sorted h _ op ih hkeys

theorem keyLe_antisymm {a b : Option SortKey} (hab : keyLe a b) (hba : keyLe b a) : a = b := by
  rcases a with _ | (u | x) <;> rcases b with _ | (v | y) <;>
    simp [keyLe, SortKey.le] at hab hba ⊢
  · rcases hab with hab | hab
    · exact hab
    · rcases hba with hba | hba
      · exact hba.symm
      · have h1 := (unitsLt_iff u v).mpr hab
        have h2 := (unitsLt_iff v u).mpr hba
        have := unitsLt_trans h1 h2
        rw [unitsLt_irrefl] at this
        exact absurd this (by simp)
  · exact le_antisymm hab hba

theorem keyOrdered_antisymm (direction : String) {a b : Option SortKey}
    (hab : keyOrdered direction a b) (hba : keyOrdered direction b a) : a = b := by
  unfold keyOrdered at hab hba
  split at hab
  · rename_i hd
    rw [if_pos hd] at hba
    exact keyLe_antisymm hab hba
  · rename_i hd
    rw [if_neg hd] at hba
    exact keyLe_antisymm hba hab

/-- Two lists with the same image under `f`, on whose records `f` tells records apart, are
equal. -/
theorem eq_of_map_eq {α β : Type} (f : α → β) (l1 l2 : List α) (hmap : l1.map f = l2.map f)
    (hinj : ∀ a ∈ l1, ∀ b ∈ l2, f a = f b → a = b) : l1 = l2 := by
  induction l1 generalizing l2 with
  | nil =>
    cases l2 with
    | nil => rfl
    | cons b t2 => simp at hmap
  | cons a t1 ih =>
    cases l2 with
    | nil => simp at hmap
    | cons b t2 =>
      simp only [List.map_cons, List.cons.injEq] at hmap
      have hab : a = b := hinj a (by simp) b (by simp) hmap.1
      have ht : t1 = t2 := ih t2 hmap.2 (fun x hx y hy hxy =>
        hinj x (List.mem_cons_of_mem _ hx) y (List.mem_cons_of_mem _ hy) hxy)
      rw [hab, ht]

theorem isIdle_step (h : Host) (m : StudentManager) (op : Op) (hop : isIdle h op = true) :
    step h m op = m := by
  cases op with
  | filterFio value => simp [isIdle, callsApplyFilters] at hop
  | filterFaculty value => simp [isIdle, callsApplyFilters] at hop
  | filterStartYear value => simp [isIdle, callsApplyFilters] at hop
  | filterEndYear value => simp [isIdle, callsApplyFilters] at hop
  | load response =>
    cases response with
    | ok body => simp [isIdle, callsApplyFilters] at hop
    | notOk => rfl
    | failed => rfl
  | submit now form response =>
    cases response with
    | ok body =>
      simp only [isIdle, callsApplyFilters, Bool.not_eq_true', Bool.and_eq_false_iff,
        decide_eq_false_iff_not] at hop
      simp only [step, handleFormSubmit]
      split
      · rfl
      · rename_i hv
        have hv1 : validateStudent h now (formStudent form) = [] := by
          cases hl : validateStudent h now (formStudent form) with
          | nil => rfl
          | cons e es => simp [hl] at hv
        rcases hop with hop | hop
        · exact absurd hv1 hop
        · unfold createStudent
          cases hd : h.dateParse (formStudent form).birthday with
          | none => rfl
          | some t => simp [hd] at hop
    | notOk =>
      simp only [step, handleFormSubmit]
      split
      · rfl
      · unfold createStudent
        split <;> rfl
    | failed =>
      simp only [step, handleFormSubmit]
      split
      · rfl
      · unfold createStudent
        split <;> rfl
  | delete studentId confirmed response =>
    cases response with
    | ok body =>
      simp only [isIdle, callsApplyFilters, Bool.not_eq_true'] at hop
      subst hop
      rfl
    | notOk =>
      simp only [step, deleteStudent]
      split <;> rfl
    | failed =>
      simp only [step, deleteStudent]
      split <;> rfl
  | sort field => simp [isIdle] at hop

theorem run_idle (h : Host) (idle : List Op) (m : StudentManager)
    (hidle : ∀ op ∈ idle, isIdle h op = true) : run h idle m = m := by
  induction idle generalizing m with
  | nil => rfl
  | cons op rest ih =>
    have h1 : run h (op :: rest) m = run h rest (step h m op) := rfl
    rw [h1, isIdle_step h m op (hidle op (by simp))]
    exact ih m (fun o ho => hidle o (List.mem_cons_of_mem _ ho))

/-- A history whose last operation other than idle ones reached `applyFilters` ends with
the view of its final list, filters and sort state. -/
theorem run_view (h : Host) (pre : List Op) (op : Op) (idle : List Op)
    (hop : callsApplyFilters h op = true) (hidle : ∀ o ∈ idle, isIdle h o = true) :
    (run h (pre ++ op :: idle) initial).filteredStudents =
      view h (run h (pre ++ op :: idle) initial).students
        (run h (pre ++ op :: idle) initial).filters
        (run h (pre ++ op :: idle) initial).currentSort := by
  have e : run h (pre ++ op :: idle) initial = step h (run h pre initial) op := by
    have e1 : run h (pre ++ op :: idle) initial =
        run h idle (step h (run h pre initial) op) := by
      simp [run, List.foldl_append]
    rw [e1, run_idle h idle _ hidle]
  rw [e]
  exact step_view h _ op hop

/-- A header click sorts the view it finds by the requested field, and the records that
share a key keep their order. -/
theorem handleSort_stable (h : Host) (m : StudentManager) (f : String) (k : Option SortKey) :
    (handleSort h m f).filteredStudents.filter (fun s => decide (sortKey h f s = k)) =
      m.filteredStudents.filter (fun s => decide (sortKey h f s = k)) := by
  have key : ∀ cs : SortState, cs.field = f →
      (arraySort (compareFn h cs) m.filteredStudents).filter
          (fun s => decide (sortKey h f s = k)) =
        m.filteredStudents.filter (fun s => decide (sortKey h f s = k)) := by
    intro cs hcs
    apply arraySort_filter
    intro x _ y _ hx hy
    apply compareFn_tied
    rw [hcs, of_decide_eq_true hx, of_decide_eq_true hy]
  unfold handleSort
  split
  · rename_i hf
    exact key _ hf
  · exact key _ rfl

/-- Claim C5, as stated, fails: two histories end with the same students, filters and sort
state and with different views. After the load the view is sorted by name; the click on the
faculty header re-sorts that view, and the two records, tied on the faculty, keep the order
by name; the later filter input rebuilds the view from `students`, and the tie keeps the
order of `students`. -/
theorem filteredStudents_depends_on_history :
    (run utcHost historySort initial).students =
      (run utcHost historySortFilter initial).students ∧
    (run utcHost historySort initial).filters =
      (run utcHost historySortFilter initial).filters ∧
    (run utcHost historySort initial).currentSort =
      (run utcHost historySortFilter initial).currentSort ∧
    (run utcHost historySort initial).filteredStudents = [studentA, studentB] ∧
    (run utcHost historySortFilter initial).filteredStudents = [studentB, studentA] ∧
    (run utcHost historySort initial).filteredStudents ≠
      (run utcHost historySortFilter initial).filteredStudents := by
  decide

/-- Claim C5, amended. Two sequences of controller operations, run from the state the
constructor leaves, that end with the same students, the same filters and the same sort
state end with views that hold the same records. When the sort keys of these records are
well defined, both views are ordered by the active sort and carry the same sequence of
keys, so they differ at most in the order of records with equal keys, and they are equal
when no two different records have equal keys. The views are equal, ties included, when in
each sequence the last operation that is not idle reached `applyFilters`. After a header
click the records that share a key keep the order they had in the view before the click. -/
theorem filteredStudents_same_records (h : Host) (ops1 ops2 : List Op)
    (hstudents : (run h ops1 initial).students = (run h ops2 initial).students)
    (hfilters : (run h ops1 initial).filters = (run h ops2 initial).filters)
    (hsort : (run h ops1 initial).currentSort = (run h ops2 initial).currentSort) :
    (run h ops1 initial).filteredStudents.Perm (run h ops2 initial).filteredStudents ∧
    ((∀ s ∈ (run h ops1 initial).filteredStudents,
        (sortKey h (run h ops1 initial).currentSort.field s).isSome = true) →
      (run h ops1 initial).filteredStudents.Pairwise
        (fun a b => keyOrdered (run h ops1 initial).currentSort.direction
          (sortKey h (run h ops1 initial).currentSort.field a)
          (sortKey h (run h ops1 initial).currentSort.field b)) ∧
      (run h ops2 initial).filteredStudents.Pairwise
        (fun a b => keyOrdered (run h ops1 initial).currentSort.direction
          (sortKey h (run h ops1 initial).currentSort.field a)
          (sortKey h (run h ops1 initial).currentSort.field b)) ∧
      (run h ops1 initial).filteredStudents.map
          (sortKey h (run h ops1 initial).currentSort.field) =
        (run h ops2 initial).filteredStudents.map
          (sortKey h (run h ops1 initial).currentSort.field) ∧
      ((∀ a ∈ (run h ops1 initial).filteredStudents,
          ∀ b ∈ (run h ops1 initial).filteredStudents,
          sortKey h (run h ops1 initial).currentSort.field a =
            sortKey h (run h ops1 initial).currentSort.field b → a = b) →
        (run h ops1 initial).filteredStudents = (run h ops2 initial).filteredStudents)) ∧
    (∀ pre1 op1 idle1 pre2 op2 idle2,
      ops1 = pre1 ++ op1 :: idle1 → ops2 = pre2 ++ op2 :: idle2 →
      callsApplyFilters h op1 = true → (∀ o ∈ idle1, isIdle h o = true) →
      callsApplyFilters h op2 = true → (∀ o ∈ idle2, isIdle h o = true) →
      (run h ops1 initial).filteredStudents = (run h ops2 initial).filteredStudents) ∧
    (∀ (f : String) (k : Option SortKey),
      (run h (ops1 ++ [Op.sort f]) initial).filteredStudents.filter
          (fun s => decide (sortKey h f s = k)) =
        (run h ops1 initial).filteredStudents.filter
          (fun s => decide (sortKey h f s = k))) := by
  have hperm : (run h ops1 initial).filteredStudents.Perm
      (run h ops2 initial).filteredStudents := by
    have h1 := run_perm h ops1
    have h2 := run_perm h ops2
    rw [hstudents, hfilters] at h1
    exact h1.trans h2.symm
  refine ⟨hperm, ?_, ?_, ?_⟩
  · intro hkeys
    have hkeys2 : ∀ s ∈ (run h ops2 initial).filteredStudents,
        (sortKey h (run h ops2 initial).currentSort.field s).isSome = true := by
      intro s hs
      rw [← hsort]
      exact hkeys s (hperm.mem_iff.mpr hs)
    have hs1 := run_sorted h ops1 hkeys
    have hs2 := run_sorted h ops2 hkeys2
    rw [← hsort] at hs2
    have hmap : (run h ops1 initial).filteredStudents.map
          (sortKey h (run h ops1 initial).currentSort.field) =
        (run h ops2 initial).filteredStudents.map
          (sortKey h (run h ops1 initial).currentSort.field) := by
      haveI : IsAntisymm (Option SortKey)
          (keyOrdered (run h ops1 initial).currentSort.direction) :=
        ⟨fun _ _ hab hba => keyOrdered_antisymm _ hab hba⟩
      exact List.eq_of_perm_of_sorted (hperm.map _) (List.pairwise_map.mpr hs1)
        (List.pairwise_map.mpr hs2)
    refine ⟨hs1, hs2, hmap, ?_⟩
    intro hinj
    exact eq_of_map_eq _ _ _ hmap
      (fun a ha b hb hab => hinj a ha b (hperm.mem_iff.mpr hb) hab)
  · intro pre1 op1 idle1 pre2 op2 idle2 e1 e2 c1 i1 c2 i2
    have v1 := run_view h pre1 op1 idle1 c1 i1
    have v2 := run_view h pre2 op2 idle2 c2 i2
    rw [← e1] at v1
    rw [← e2] at v2
    rw [v1, v2, hstudents, hfilters, hsort]
  · intro f k
    rw [run_append]
    exact handleSort_stable h _ f k

/-- Claim C5, amended, at a concrete input: two histories that end with a filter input. -/
theorem filteredStudents_same_records_witness :
    (run utcHost historySortFilter initial).filteredStudents.Perm
      (run utcHost historyFilterLast initial).filteredStudents ∧
    (run utcHost historySortFilter initial).filteredStudents =
      (run utcHost historyFilterLast initial).filteredStudents :=
  ⟨(filteredStudents_same_records utcHost historySortFilter historyFilterLast
      (by decide) (by decide) (by decide)).1,
    (filteredStudents_same_records utcHost historySortFilter historyFilterLast
      (by decide) (by decide) (by decide)).2.2.1
      [Op.load (Fetch.ok [studentB, studentA]), Op.sort "faculty"] (Op.filterFio "") []
      [Op.load (Fetch.ok [studentB, studentA]), Op.sort "fio", Op.sort "faculty"]
      (Op.filterFaculty "") [] rfl rfl rfl (by simp) rfl (by simp)⟩

/-! ## Deletion -/

/-- A deletion that the user declines, or whose request does not succeed, changes nothing. -/
theorem deleteStudent_unchanged (h : Host) (m : StudentManager) (studentId : JSVal)
    (confirmed : Bool) (response : Fetch Unit)
    (hno : confirmed = false ∨ response = Fetch.notOk ∨ response = Fetch.failed) :
    deleteStudent h m studentId confirmed response = m := by
  unfold deleteStudent
  rcases hno with hc | hr | hr
  · simp [hc]
  · subst hr
    split <;> rfl
  · subst hr
    split <;> rfl

/-- A confirmed, successful deletion invoked with the argument of the rendered button
removes the records with the id of the row and keeps the others in order, when that id is a
string. -/
theorem deleteStudent_string_id (h : Host) (m : StudentManager) (r : Student) (text : String)
    (arg : JSVal) (hid : r.id = JSVal.str text) (harg : deleteButtonArgument r = some arg) :
    (deleteStudent h m arg true (Fetch.ok ())).students =
      m.students.filter (fun s => decide (s.id ≠ r.id)) ∧
    (∀ s ∈ (deleteStudent h m arg true (Fetch.ok ())).students, s.id ≠ r.id) ∧
    (deleteStudent h m arg true (Fetch.ok ())).students.Sublist m.students := by
  have harg1 : arg = JSVal.str text := by
    unfold deleteButtonArgument at harg
    rw [hid] at harg
    split at harg
    · simpa [JSVal.toStr] using harg.symm
    · exact absurd harg (by simp)
  subst harg1
  have hst : (deleteStudent h m (JSVal.str text) true (Fetch.ok ())).students =
      m.students.filter (fun s => decide (s.id ≠ r.id)) := by
    show m.students.filter (fun s => strictEq s.id (JSVal.str text) = false) = _
    apply List.filter_congr
    intro s _
    rw [hid]
    by_cases hs : s.id = JSVal.str text
    · simp [hs, (strictEq_str _ text).mpr rfl]
    · have : strictEq s.id (JSVal.str text) = false := by
        simpa using (strictEq_str s.id text).not.mpr hs
      simp [hs, this]
  refine ⟨hst, ?_, ?_⟩
  · intro s hs
    rw [hst] at hs
    simpa using (List.mem_filter.mp hs).2
  · rw [hst]
    exact List.filter_sublist _

/-- Claim C6, the code at the failing input. The server sent the id of the record as the
number 1; the rendered button passes the string `1`; after the confirmed and successful
deletion the record is still in `students`. -/
theorem deleteStudent_keeps_numeric_id :
    managerNumericId.students = [studentNumericId] ∧
    deleteButtonArgument studentNumericId = some (JSVal.str "1") ∧
    (deleteStudent utcHost managerNumericId (JSVal.str "1") true (Fetch.ok ())).students =
      [studentNumericId] := by
  decide

end StudentManager
